import Mathlib

/-!
Verification of the batch operation engine of `clove-front`.

The engine appears twice with identical coordination logic:
`BatchCookieModal.handleSubmit/processOne` and
`BatchRefreshModal.startProcessing/processOne`.  Both run a worker pool
over a shared list of per-item result records:

* a shared cursor `nextIndex` that each worker post-increments to claim
  the next item (`const i = nextIndex++`);
* a shared cancellation flag `cancelledRef`, consulted by each worker
  after claiming and before starting the operation;
* `min(concurrency, totalCount)` workers, each looping
  claim → bounds-check → cancel-check → mark `processing` → run the
  injected remote operation → write the terminal result;
* after `Promise.allSettled` resolves, a sweep converting any record
  still `pending` to `cancelled` when the flag is set.

The embedding below is a small-step transition system.  Scheduling
points of the cooperative JavaScript runtime are modelled at least as
finely as they occur (every state between two atomic segments of the
source is reachable here), so safety statements proved for all traces
cover all behaviours of the source.  The injected remote operation is a
function `Nat → OpResult` giving the outcome for each item index, which
covers any mix of succeeding and failing operations.
-/

/-- Status strings of `CookieResult.status` / `RefreshResultItem.status`:
`'pending' | 'processing' | 'success' | 'error' | 'cancelled'`. -/
inductive ItemStatus where
  | pending
  | processing
  | success
  | error
  | cancelled
deriving DecidableEq, Repr, Inhabited

/-- Outcome of one invocation of the injected remote operation
(`accountsApi.create` / `accountsApi.refreshAccount`, including the
synchronous validation branch of the cookie site): either a success
payload (for example `organization_uuid`) or an error message. -/
inductive OpResult where
  | ok (payload : String)
  | fail (msg : String)
deriving DecidableEq, Repr, Inhabited

/-- One entry of the `results` state array (`CookieResult`): the raw
item, its status, and the optional error message / success payload
fields written by the terminal updates. -/
structure ResultRecord where
  item : String
  status : ItemStatus
  errMsg : Option String
  payload : Option String
deriving DecidableEq, Repr

instance : Inhabited ResultRecord :=
  ⟨⟨"", ItemStatus.pending, none, none⟩⟩

/-- Program counter of one worker (`processOne` invocation): at the top
of the `while (true)` loop, suspended in the `await` of the operation
for a claimed index, or returned. -/
inductive WorkerPC where
  | idle
  | working (i : Nat)
  | finished
deriving DecidableEq, Repr, Inhabited

/-- State of one batch run: the `results` array, the shared claim
cursor `nextIndex`, the `cancelledRef` flag, the worker program
counters, plus two ghost histories used only in statements: the values
successively taken from the cursor (`claims`) and the indices at which
the injected operation was started (`invoked`). -/
structure PoolState where
  results : List ResultRecord
  nextIndex : Nat
  cancelled : Bool
  workers : List WorkerPC
  claims : List Nat
  invoked : List Nat
deriving DecidableEq, Repr, Inhabited

/-- Status of the record at index `i` (out-of-range reads give the
default `pending` record; all accesses in the dynamics are in range). -/
def statusAt (s : PoolState) (i : Nat) : ItemStatus :=
  (s.results.getD i default).status

/-- The guarded cancel write
`if (updated[i]?.status === 'pending') updated[i] = {...updated[i], status: 'cancelled'}`,
also the body of the final sweep
`prev.map(r => (r.status === 'pending' ? { ...r, status: 'cancelled' } : r))`. -/
def markCancelledIfPending (r : ResultRecord) : ResultRecord :=
  if r.status = ItemStatus.pending then { r with status := ItemStatus.cancelled } else r

/-- The terminal update of a completed operation: on success
`{...updated[i], status: 'success', organizationUuid: ...}`, on failure
`{...updated[i], status: 'error', error: errorMessage}`. -/
def applyOp (r : ResultRecord) (res : OpResult) : ResultRecord :=
  match res with
  | OpResult.ok p => { r with status := ItemStatus.success, payload := some p }
  | OpResult.fail m => { r with status := ItemStatus.error, errMsg := some m }

/-- Branch of `processOne` where the claimed index is in range and the
cancellation flag is set: mark the claimed record cancelled (only if it
is still pending) and return from the worker loop. -/
def claimCancelStep (s : PoolState) (w : Nat) : PoolState :=
  { s with
      nextIndex := s.nextIndex + 1,
      claims := s.claims ++ [s.nextIndex],
      results := s.results.set s.nextIndex
        (markCancelledIfPending (s.results.getD s.nextIndex default)),
      workers := s.workers.set w WorkerPC.finished }

/-- Branch of `processOne` where the claimed index is in range and the
flag is clear: mark the record `processing` and start the injected
operation for it. -/
def claimStartStep (s : PoolState) (w : Nat) : PoolState :=
  { s with
      nextIndex := s.nextIndex + 1,
      claims := s.claims ++ [s.nextIndex],
      results := s.results.set s.nextIndex
        { (s.results.getD s.nextIndex default) with status := ItemStatus.processing },
      workers := s.workers.set w (WorkerPC.working s.nextIndex),
      invoked := s.invoked ++ [s.nextIndex] }

/-- Branch of `processOne` where the claimed index is out of range
(`i >= totalCount`): the worker returns. -/
def claimExitStep (s : PoolState) (w : Nat) : PoolState :=
  { s with
      nextIndex := s.nextIndex + 1,
      claims := s.claims ++ [s.nextIndex],
      workers := s.workers.set w WorkerPC.finished }

/-- Resolution of the awaited operation for index `i`: commit the
terminal result and return to the loop head. -/
def completeStep (op : Nat → OpResult) (s : PoolState) (w i : Nat) : PoolState :=
  { s with
      results := s.results.set i (applyOp (s.results.getD i default) (op i)),
      workers := s.workers.set w WorkerPC.idle }

/-- One atomic segment of worker `w` (`processOne`):
if the worker is at the loop head it claims `i = nextIndex++`, exits on
`i >= totalCount`, on `cancelledRef.current` marks the claimed record
cancelled (only if still pending) and exits, and otherwise marks the
record `processing` and starts the injected operation; if the worker is
suspended in the operation for index `i`, the operation resolves and
the worker commits the terminal result and loops. -/
def workerStep (op : Nat → OpResult) (s : PoolState) (w : Nat) : PoolState :=
  match s.workers.getD w WorkerPC.finished with
  | WorkerPC.finished => s
  | WorkerPC.idle =>
      if s.nextIndex < s.results.length then
        if s.cancelled then claimCancelStep s w
        else claimStartStep s w
      else claimExitStep s w
  | WorkerPC.working i => completeStep op s w i

/-- An event of the cooperative scheduler: one atomic segment of a
worker, or the user pressing cancel (`cancelledRef.current = true`). -/
inductive BatchAction where
  | work (w : Nat)
  | cancel
deriving DecidableEq, Repr

/-- One scheduler step. -/
def step (op : Nat → OpResult) (s : PoolState) : BatchAction → PoolState
  | BatchAction.work w => workerStep op s w
  | BatchAction.cancel => { s with cancelled := true }

/-- Execution of a trace of scheduler events. -/
def run (op : Nat → OpResult) (s : PoolState) (tr : List BatchAction) : PoolState :=
  tr.foldl (step op) s

/-- Initial state of one submission: `initialResults` maps every item to
a pending record, the cursor is zero, the flag is cleared, and
`Math.min(concurrency, totalCount)` workers are started. -/
def initState (items : List String) (concurrency : Nat) : PoolState :=
  { results := items.map (fun it => ⟨it, ItemStatus.pending, none, none⟩),
    nextIndex := 0,
    cancelled := false,
    workers := List.replicate (Nat.min concurrency items.length) WorkerPC.idle,
    claims := [],
    invoked := [] }

/-- Execution of a full trace from a fresh submission. -/
def runFrom (op : Nat → OpResult) (items : List String) (concurrency : Nat)
    (tr : List BatchAction) : PoolState :=
  run op (initState items concurrency) tr

/-- The final sweep after `Promise.allSettled`:
`prev.map(r => (r.status === 'pending' ? { ...r, status: 'cancelled' } : r))`. -/
def sweep (s : PoolState) : PoolState :=
  { s with results := s.results.map markCancelledIfPending }

/-- What runs after all workers exited: the sweep, guarded by
`if (cancelledRef.current)`. -/
def finish (s : PoolState) : PoolState :=
  if s.cancelled then sweep s else s

/-- All workers have exited, that is `Promise.allSettled` has resolved. -/
def allDone (s : PoolState) : Prop :=
  ∀ p ∈ s.workers, p = WorkerPC.finished

instance (s : PoolState) : Decidable (allDone s) := by
  unfold allDone; infer_instance

/-- A terminal status: success, error or cancelled. -/
def ItemStatus.isTerminal : ItemStatus → Bool
  | ItemStatus.success => true
  | ItemStatus.error => true
  | ItemStatus.cancelled => true
  | _ => false

/-- Derived count `getSuccessCount`. -/
def succeededCount (rs : List ResultRecord) : Nat :=
  (rs.filter (fun r => r.status == ItemStatus.success)).length

/-- Derived count `getErrorCount`. -/
def failedCount (rs : List ResultRecord) : Nat :=
  (rs.filter (fun r => r.status == ItemStatus.error)).length

/-- Derived count `getCancelledCount`. -/
def cancelledCount (rs : List ResultRecord) : Nat :=
  (rs.filter (fun r => r.status == ItemStatus.cancelled)).length

/-- Derived count `getProcessingCount`. -/
def processingCount (rs : List ResultRecord) : Nat :=
  (rs.filter (fun r => r.status == ItemStatus.processing)).length

/-- Count of records still pending (no getter in the source renders it,
but the sweep and the claims are guarded on it). -/
def pendingCount (rs : List ResultRecord) : Nat :=
  (rs.filter (fun r => r.status == ItemStatus.pending)).length

/-- Count of records in a terminal status. -/
def terminalCount (rs : List ResultRecord) : Nat :=
  (rs.filter (fun r => r.status.isTerminal)).length

/-- The progress accessor `getProgress` of both modals:
`results.length === 0` guards the empty case, otherwise the fraction of
records in a terminal status is scaled by `100`. -/
def getProgress (rs : List ResultRecord) : ℚ :=
  if rs.length = 0 then 0
  else
    (((rs.filter (fun r =>
        r.status == ItemStatus.success || r.status == ItemStatus.error ||
          r.status == ItemStatus.cancelled)).length : ℚ) / (rs.length : ℚ)) * 100

/-- Insertion into a JavaScript `Set` in iteration order: a value
already present is ignored, a new value goes to the back. -/
def insertLast (acc : List String) (x : String) : List String :=
  if x ∈ acc then acc else acc ++ [x]

/-- The exact-match deduplication `[...new Set(rawLines)]` of
`handleSubmit`: first-occurrence-order deduplication. -/
def dedupFirst (l : List String) : List String :=
  l.foldl insertLast []

/-- Line parsing of `handleSubmit`:
`cookies.split('\n').map(line => line.trim()).filter(line => line.length > 0)`. -/
def parseLines (s : String) : List String :=
  ((s.splitOn "\n").map (fun line => line.trim)).filter (fun line => line ≠ "")

/-- Outcome of the synchronous submission phase of `handleSubmit`:
either the early `return` on an empty line list, or a started run with
its initial records, its worker count, and the reported number of
removed duplicates. -/
inductive SubmitOutcome where
  | rejected
  | started (initial : List ResultRecord) (workerCount : Nat) (removedCount : Nat)
deriving DecidableEq, Repr

/-- The synchronous part of `BatchCookieModal.handleSubmit` before any
worker runs, starting from the parsed `rawLines`: return early when no
non-empty line remains, deduplicate, compute the removed-duplicate
count reported by the toast, build the pending records, and size the
pool by `Math.min(concurrency, totalCount)`. -/
def handleSubmitPhase (rawLines : List String) (concurrency : Nat) : SubmitOutcome :=
  if rawLines.length = 0 then SubmitOutcome.rejected
  else
    let uniqueLines := dedupFirst rawLines
    SubmitOutcome.started
      (uniqueLines.map (fun c => ⟨c, ItemStatus.pending, none, none⟩))
      (Nat.min concurrency uniqueLines.length)
      (rawLines.length - uniqueLines.length)

/-- The whole synchronous phase of `handleSubmit` from the textarea
string: parsing composed with the submission phase. -/
def handleSubmitFromText (cookies : String) (concurrency : Nat) : SubmitOutcome :=
  handleSubmitPhase (parseLines cookies) concurrency

/-- One entry of the `results` state of `BatchRefreshModal`. -/
structure RefreshResultItem where
  organizationUuid : String
  status : ItemStatus
  previousStatus : Option String
  newStatus : Option String
  errMsg : Option String
deriving DecidableEq, Repr

/-- The `initialResults` of `BatchRefreshModal.startProcessing`:
`organizationUuids.map(uuid => ({ organizationUuid: uuid, status: 'pending' }))` —
the caller-supplied list is used verbatim, with no deduplication. -/
def refreshInitialResults (organizationUuids : List String) : List RefreshResultItem :=
  organizationUuids.map (fun uuid => ⟨uuid, ItemStatus.pending, none, none, none⟩)

/-- Worker is suspended in an operation. -/
def WorkerPC.isWorking : WorkerPC → Bool
  | WorkerPC.working _ => true
  | _ => false

/-- Number of workers currently suspended in an operation. -/
def workingCount (ws : List WorkerPC) : Nat :=
  (ws.filter (fun p => p.isWorking)).length

/-- A committed terminal record reflects the outcome of the injected
operation at its index: a success record carries the operation's
payload and an error record carries the operation's message. -/
def recordMatches (op : Nat → OpResult) (i : Nat) (r : ResultRecord) : Prop :=
  (r.status = ItemStatus.success → ∃ p, r.payload = some p ∧ op i = OpResult.ok p) ∧
  (r.status = ItemStatus.error → ∃ m, r.errMsg = some m ∧ op i = OpResult.fail m)

/-- Invariant maintained by every scheduler step, from which all safety
claims follow.  `claims_eq`: the values handed out by the shared cursor
are exactly `0, 1, ..., nextIndex-1`.  `unclaimed_pending` /
`claimed_not_pending`: a record is pending exactly when its index is
unclaimed.  `working_proc`: a worker suspended on `i` holds a claimed
in-range index whose record is `processing`.  `working_inj`: no two
workers are suspended on the same index.  `proc_eq_working`: records in
`processing` correspond one-to-one to suspended workers.  `cancel_flag`:
cancelled records appear only after the flag is set.  `finished_reason`:
a worker only returns on cancellation or queue exhaustion.
`invoked_iff` / `invoked_nodup` / `invoked_lt`: the operation is started
at most once per index, and exactly on the indices whose record is
processing or terminal-by-operation.  `record_ok`: committed terminal
records agree with the operation's outcome. -/
structure PoolInv (op : Nat → OpResult) (s : PoolState) : Prop where
  claims_eq : s.claims = List.range s.nextIndex
  unclaimed_pending : ∀ i, s.nextIndex ≤ i → statusAt s i = ItemStatus.pending
  claimed_not_pending : ∀ i, i < s.nextIndex → i < s.results.length →
      statusAt s i ≠ ItemStatus.pending
  working_proc : ∀ w i, s.workers.getD w WorkerPC.finished = WorkerPC.working i →
      i < s.results.length ∧ i < s.nextIndex ∧ statusAt s i = ItemStatus.processing
  working_inj : ∀ w1 w2 i, s.workers.getD w1 WorkerPC.finished = WorkerPC.working i →
      s.workers.getD w2 WorkerPC.finished = WorkerPC.working i → w1 = w2
  proc_eq_working : processingCount s.results = workingCount s.workers
  cancel_flag : ∀ i, statusAt s i = ItemStatus.cancelled → s.cancelled = true
  finished_reason : ∀ w, w < s.workers.length →
      s.workers.getD w WorkerPC.finished = WorkerPC.finished →
      s.cancelled = true ∨ s.results.length ≤ s.nextIndex
  invoked_iff : ∀ i, i < s.results.length →
      ((statusAt s i = ItemStatus.processing ∨ statusAt s i = ItemStatus.success ∨
        statusAt s i = ItemStatus.error) ↔ i ∈ s.invoked)
  invoked_nodup : s.invoked.Nodup
  invoked_lt : ∀ i ∈ s.invoked, i < s.results.length
  record_ok : ∀ i, i < s.results.length → recordMatches op i (s.results.getD i default)

/-- Relation between a base state (the state at which cancellation was
requested with nothing in flight) and any later state: the flag is set,
no worker is suspended in an operation, result lengths agree, and every
record is either unchanged from the base or is a pending base record
marked cancelled. -/
def FrozenFrom (base s : PoolState) : Prop :=
  s.cancelled = true ∧
  s.results.length = base.results.length ∧
  (∀ w i, s.workers.getD w WorkerPC.finished ≠ WorkerPC.working i) ∧
  (∀ i, i < base.results.length →
    (s.results.getD i default = base.results.getD i default ∨
     (statusAt base i = ItemStatus.pending ∧
      s.results.getD i default
        = { base.results.getD i default with status := ItemStatus.cancelled })))

/-- Injected operation of the end-to-end scenario: items `A` and `C`
succeed, item `B` fails with message `"invalid"`. -/
def opE2E : Nat → OpResult :=
  fun i => if i = 1 then OpResult.fail "invalid" else OpResult.ok "uuid"

/-- One completing schedule of the end-to-end scenario with two
workers. -/
def trE2E : List BatchAction :=
  [BatchAction.work 0, BatchAction.work 1, BatchAction.work 0, BatchAction.work 1,
   BatchAction.work 0, BatchAction.work 0, BatchAction.work 1, BatchAction.work 0]


/-! ### List helper lemmas -/

theorem getD_set_self {α : Type} (l : List α) (i : Nat) (v d : α) (h : i < l.length) :
    (l.set i v).getD i d = v := by
  rw [List.getD_eq_getElem?_getD, List.getElem?_set_self h]
  rfl

theorem getD_set_ne {α : Type} (l : List α) (i j : Nat) (v d : α) (h : i ≠ j) :
    (l.set i v).getD j d = l.getD j d := by
  rw [List.getD_eq_getElem?_getD, List.getElem?_set_ne h, ← List.getD_eq_getElem?_getD]

theorem getD_of_ge {α : Type} (l : List α) (i : Nat) (d : α) (h : l.length ≤ i) :
    l.getD i d = d := by
  rw [List.getD_eq_getElem?_getD, List.getElem?_eq_none h]
  rfl

theorem getD_map_lt {α β : Type} (f : α → β) (l : List α) (i : Nat) (d1 : β) (d2 : α)
    (h : i < l.length) : (l.map f).getD i d1 = f (l.getD i d2) := by
  have h1 : i < (l.map f).length := by simpa using h
  rw [List.getD_eq_getElem (l.map f) d1 h1, List.getD_eq_getElem l d2 h, List.getElem_map]

theorem countP_set_add {α : Type} (p : α → Bool) (l : List α) (i : Nat) (v d : α)
    (h : i < l.length) :
    (l.set i v).countP p + (if p (l.getD i d) then 1 else 0)
      = l.countP p + (if p v then 1 else 0) := by
  induction l generalizing i with
  | nil => simp at h
  | cons a t ih =>
    cases i with
    | zero =>
      simp only [List.set, List.countP_cons, List.getD_cons_zero]
      omega
    | succ n =>
      have hn : n < t.length := by simpa using h
      have := ih n hn
      simp only [List.set, List.countP_cons, List.getD_cons_succ]
      omega

theorem countP_eq_pointwise {α β : Type} (p : α → Bool) (q : β → Bool)
    (l1 : List α) (l2 : List β) (d1 : α) (d2 : β)
    (hlen : l1.length = l2.length)
    (h : ∀ i, i < l1.length → p (l1.getD i d1) = q (l2.getD i d2)) :
    l1.countP p = l2.countP q := by
  induction l1 generalizing l2 with
  | nil =>
    cases l2 with
    | nil => simp
    | cons b t2 => simp at hlen
  | cons a t ih =>
    cases l2 with
    | nil => simp at hlen
    | cons b t2 =>
      have h0 := h 0 (by simp)
      simp only [List.getD_cons_zero] at h0
      rw [List.countP_cons, List.countP_cons, h0, ih t2 (by simpa using hlen)]
      intro i hi
      have := h (i + 1) (by simpa using Nat.succ_lt_succ hi)
      simpa only [List.getD_cons_succ] using this

theorem forall_mem_of_forall_getD {α : Type} (l : List α) (d : α) (p : α → Prop)
    (h : ∀ i, i < l.length → p (l.getD i d)) : ∀ x ∈ l, p x := by
  intro x hx
  obtain ⟨n, hn, rfl⟩ := List.getElem_of_mem hx
  have := h n hn
  rwa [List.getD_eq_getElem l d hn] at this

/-! ### Bridges between the filter-based counters and `countP` -/

theorem succeededCount_eq_countP (rs : List ResultRecord) :
    succeededCount rs = rs.countP (fun r => r.status == ItemStatus.success) :=
  (List.countP_eq_length_filter _ _).symm

theorem failedCount_eq_countP (rs : List ResultRecord) :
    failedCount rs = rs.countP (fun r => r.status == ItemStatus.error) :=
  (List.countP_eq_length_filter _ _).symm

theorem cancelledCount_eq_countP (rs : List ResultRecord) :
    cancelledCount rs = rs.countP (fun r => r.status == ItemStatus.cancelled) :=
  (List.countP_eq_length_filter _ _).symm

theorem processingCount_eq_countP (rs : List ResultRecord) :
    processingCount rs = rs.countP (fun r => r.status == ItemStatus.processing) :=
  (List.countP_eq_length_filter _ _).symm

theorem pendingCount_eq_countP (rs : List ResultRecord) :
    pendingCount rs = rs.countP (fun r => r.status == ItemStatus.pending) :=
  (List.countP_eq_length_filter _ _).symm

theorem terminalCount_eq_countP (rs : List ResultRecord) :
    terminalCount rs = rs.countP (fun r => r.status.isTerminal) :=
  (List.countP_eq_length_filter _ _).symm

theorem status_beq_eq_decide (a b : ItemStatus) : (a == b) = decide (a = b) := by
  cases a <;> cases b <;> rfl

/-- Every record carries exactly one status, so the five counters
partition the record list. -/
theorem counts_partition (rs : List ResultRecord) :
    pendingCount rs + processingCount rs + succeededCount rs + failedCount rs
      + cancelledCount rs = rs.length := by
  induction rs with
  | nil => simp [pendingCount, processingCount, succeededCount, failedCount, cancelledCount]
  | cons r t ih =>
    cases hst : r.status <;>
      simp only [pendingCount, processingCount, succeededCount, failedCount, cancelledCount,
        List.filter_cons, List.length_cons, status_beq_eq_decide, hst] at ih ⊢ <;>
      simp <;> omega

/-- When every record is terminal, the three terminal counters sum to
the total count. -/
theorem counts_sum_of_terminal (rs : List ResultRecord)
    (h : ∀ r ∈ rs, r.status.isTerminal = true) :
    succeededCount rs + failedCount rs + cancelledCount rs = rs.length := by
  induction rs with
  | nil => simp [succeededCount, failedCount, cancelledCount]
  | cons r t ih =>
    have hr := h r (by simp)
    have ht := ih (fun x hx => h x (by simp [hx]))
    cases hst : r.status <;> rw [hst] at hr <;>
      simp only [succeededCount, failedCount, cancelledCount, List.filter_cons,
        List.length_cons, status_beq_eq_decide, hst] at ht ⊢ <;>
      simp [ItemStatus.isTerminal] at hr ⊢ <;> omega

/-! ### The run invariant -/

theorem workingCount_eq_countP (ws : List WorkerPC) :
    workingCount ws = ws.countP (fun p => p.isWorking) :=
  (List.countP_eq_length_filter _ _).symm

theorem statusAt_initState (items : List String) (c : Nat) (i : Nat) :
    statusAt (initState items c) i = ItemStatus.pending := by
  unfold statusAt initState
  by_cases h : i < items.length
  · rw [getD_map_lt _ items i default "" h]
  · rw [getD_of_ge]
    · rfl
    · simpa using Nat.le_of_not_lt h

theorem inv_init (op : Nat → OpResult) (items : List String) (c : Nat) :
    PoolInv op (initState items c) := by
  have hstat := statusAt_initState items c
  have hworkers : ∀ w, (initState items c).workers.getD w WorkerPC.finished = WorkerPC.idle ∨
      (initState items c).workers.getD w WorkerPC.finished = WorkerPC.finished := by
    intro w
    by_cases h : w < (initState items c).workers.length
    · left
      rw [List.getD_eq_getElem _ _ h]
      exact List.getElem_replicate _ _
    · right
      exact getD_of_ge _ _ _ (Nat.le_of_not_lt h)
  refine ⟨rfl, fun i _ => hstat i, ?_, ?_, ?_, ?_, ?_, ?_, ?_, ?_, ?_, ?_⟩
  · intro i hi _
    simp [initState] at hi
  · intro w i hw
    rcases hworkers w with h | h <;> rw [h] at hw <;> exact absurd hw (by simp)
  · intro w1 w2 i hw1 _
    rcases hworkers w1 with h | h <;> rw [h] at hw1 <;> exact absurd hw1 (by simp)
  · rw [processingCount_eq_countP, workingCount_eq_countP]
    unfold initState
    rw [List.countP_replicate]
    have : ∀ r ∈ items.map (fun it =>
        (⟨it, ItemStatus.pending, none, none⟩ : ResultRecord)),
        ¬((fun r => r.status == ItemStatus.processing) r = true) := by
      intro r hr
      obtain ⟨x, _, rfl⟩ := List.mem_map.mp hr
      simp
    rw [List.countP_eq_zero.mpr this]
    simp [WorkerPC.isWorking]
  · intro i hi
    rw [hstat i] at hi
    exact absurd hi (by simp)
  · intro w hwlen hw
    have : (initState items c).workers.getD w WorkerPC.finished = WorkerPC.idle := by
      rw [List.getD_eq_getElem _ _ hwlen]
      exact List.getElem_replicate _ _
    rw [this] at hw
    exact absurd hw (by simp)
  · intro i _
    rw [hstat i]
    constructor
    · intro h
      rcases h with h | h | h <;> exact absurd h (by simp)
    · intro h
      simp [initState] at h
  · exact List.nodup_nil
  · intro i hi
    simp [initState] at hi
  · intro i hi
    constructor
    · intro h
      have := hstat i
      unfold statusAt at this
      rw [this] at h
      exact absurd h (by simp)
    · intro h
      have := hstat i
      unfold statusAt at this
      rw [this] at h
      exact absurd h (by simp)

theorem getD_set {α : Type} (l : List α) (i j : Nat) (v d : α) :
    (l.set i v).getD j d = if i = j ∧ i < l.length then v else l.getD j d := by
  rcases Decidable.em (i = j) with h | h
  · subst h
    rcases Decidable.em (i < l.length) with h2 | h2
    · rw [getD_set_self l i v d h2]
      simp [h2]
    · have hlen : l.length ≤ i := Nat.le_of_not_lt h2
      rw [getD_of_ge (l.set i v) i d (by simpa using hlen), getD_of_ge l i d hlen]
      simp [h2]
  · rw [getD_set_ne l i j v d h]
    exact (if_neg (fun hx => h hx.1)).symm

theorem w_lt_length_of_getD {α : Type} (l : List α) (w : Nat) (d : α)
    (h : l.getD w d ≠ d) : w < l.length := by
  by_contra hc
  exact h (getD_of_ge l w d (Nat.le_of_not_lt hc))

theorem countP_set_same {α : Type} (p : α → Bool) (l : List α) (i : Nat) (v d : α)
    (h : i < l.length) (h1 : p (l.getD i d) = false) (h2 : p v = false) :
    (l.set i v).countP p = l.countP p := by
  have h3 := countP_set_add p l i v d h
  rw [h1, h2] at h3
  simpa using h3

theorem countP_set_incr {α : Type} (p : α → Bool) (l : List α) (i : Nat) (v d : α)
    (h : i < l.length) (h1 : p (l.getD i d) = false) (h2 : p v = true) :
    (l.set i v).countP p = l.countP p + 1 := by
  have h3 := countP_set_add p l i v d h
  rw [h1, h2] at h3
  simpa using h3

theorem countP_set_decr {α : Type} (p : α → Bool) (l : List α) (i : Nat) (v d : α)
    (h : i < l.length) (h1 : p (l.getD i d) = true) (h2 : p v = false) :
    (l.set i v).countP p + 1 = l.countP p := by
  have h3 := countP_set_add p l i v d h
  rw [h1, h2] at h3
  simpa using h3

theorem inv_claimCancelStep (op : Nat → OpResult) (s : PoolState) (w : Nat)
    (hInv : PoolInv op s)
    (hw : s.workers.getD w WorkerPC.finished = WorkerPC.idle)
    (hlt : s.nextIndex < s.results.length)
    (hc : s.cancelled = true) :
    PoolInv op (claimCancelStep s w) := by
  have hwlt : w < s.workers.length :=
    w_lt_length_of_getD _ _ _ (by rw [hw]; simp)
  have hpend : (s.results.getD s.nextIndex default).status = ItemStatus.pending :=
    hInv.unclaimed_pending s.nextIndex (Nat.le_refl _)
  have hmark : (markCancelledIfPending (s.results.getD s.nextIndex default)).status
      = ItemStatus.cancelled := by
    unfold markCancelledIfPending
    rw [if_pos hpend]
  have hstat : ∀ j, statusAt (claimCancelStep s w) j =
      if s.nextIndex = j then ItemStatus.cancelled else statusAt s j := by
    intro j
    show ((s.results.set s.nextIndex _).getD j default).status = _
    rw [getD_set]
    rcases Decidable.em (s.nextIndex = j) with h | h
    · rw [if_pos ⟨h, hlt⟩, if_pos h, hmark]
    · rw [if_neg (fun hx => h hx.1), if_neg h]
      rfl
  have hpc : ∀ w', (claimCancelStep s w).workers.getD w' WorkerPC.finished =
      if w = w' then WorkerPC.finished else s.workers.getD w' WorkerPC.finished := by
    intro w'
    show (s.workers.set w WorkerPC.finished).getD w' WorkerPC.finished = _
    rw [getD_set]
    rcases Decidable.em (w = w') with h | h
    · rw [if_pos ⟨h, hwlt⟩, if_pos h]
    · rw [if_neg (fun hx => h hx.1), if_neg h]
  have hlen : (claimCancelStep s w).results.length = s.results.length :=
    List.length_set _ _ _
  refine ⟨?_, ?_, ?_, ?_, ?_, ?_, ?_, ?_, ?_, ?_, ?_, ?_⟩
  · show s.claims ++ [s.nextIndex] = List.range (s.nextIndex + 1)
    rw [hInv.claims_eq, List.range_succ]
  · intro j hj
    have hj' : s.nextIndex + 1 ≤ j := hj
    rw [hstat j, if_neg (by omega)]
    exact hInv.unclaimed_pending j (by omega)
  · intro j hj hjlen
    have hj' : j < s.nextIndex + 1 := hj
    have hjlen' : j < s.results.length := by rw [hlen] at hjlen; exact hjlen
    rw [hstat j]
    rcases Decidable.em (s.nextIndex = j) with h | h
    · rw [if_pos h]
      simp
    · rw [if_neg h]
      exact hInv.claimed_not_pending j (by omega) hjlen'
  · intro w' i hw'
    rw [hpc w'] at hw'
    rcases Decidable.em (w = w') with h | h
    · rw [if_pos h] at hw'
      exact absurd hw' (by simp)
    · rw [if_neg h] at hw'
      obtain ⟨h1, h2, h3⟩ := hInv.working_proc w' i hw'
      refine ⟨by rw [hlen]; exact h1, show i < s.nextIndex + 1 by omega, ?_⟩
      rw [hstat i, if_neg (by omega)]
      exact h3
  · intro w1 w2 i hw1 hw2
    rw [hpc w1] at hw1
    rw [hpc w2] at hw2
    rcases Decidable.em (w = w1) with h1 | h1
    · rw [if_pos h1] at hw1
      exact absurd hw1 (by simp)
    · rcases Decidable.em (w = w2) with h2 | h2
      · rw [if_pos h2] at hw2
        exact absurd hw2 (by simp)
      · rw [if_neg h1] at hw1
        rw [if_neg h2] at hw2
        exact hInv.working_inj w1 w2 i hw1 hw2
  · show processingCount (s.results.set s.nextIndex
        (markCancelledIfPending (s.results.getD s.nextIndex default)))
      = workingCount (s.workers.set w WorkerPC.finished)
    rw [processingCount_eq_countP, workingCount_eq_countP]
    rw [countP_set_same (fun r => r.status == ItemStatus.processing) s.results s.nextIndex
      (markCancelledIfPending (s.results.getD s.nextIndex default)) default hlt
      (by show ((s.results.getD s.nextIndex default).status == ItemStatus.processing) = false
          rw [hpend]
          rfl)
      (by show ((markCancelledIfPending
            (s.results.getD s.nextIndex default)).status == ItemStatus.processing) = false
          rw [hmark]
          rfl)]
    rw [countP_set_same (fun p => p.isWorking) s.workers w WorkerPC.finished WorkerPC.finished
      hwlt
      (by show (s.workers.getD w WorkerPC.finished).isWorking = false
          rw [hw]
          rfl)
      rfl]
    have h3 := hInv.proc_eq_working
    rw [processingCount_eq_countP, workingCount_eq_countP] at h3
    exact h3
  · intro i _
    exact hc
  · intro w' _ _
    exact Or.inl hc
  · intro i hi
    have hi' : i < s.results.length := by rw [hlen] at hi; exact hi
    rw [hstat i]
    rcases Decidable.em (s.nextIndex = i) with h | h
    · rw [if_pos h]
      constructor
      · intro hx
        rcases hx with hx | hx | hx <;> exact absurd hx (by simp)
      · intro hx
        have h5 := (hInv.invoked_iff i hi').mpr hx
        rw [← h] at h5
        unfold statusAt at h5
        rw [hpend] at h5
        rcases h5 with h5 | h5 | h5 <;> exact absurd h5 (by simp)
    · rw [if_neg h]
      exact hInv.invoked_iff i hi'
  · exact hInv.invoked_nodup
  · intro i hi
    rw [hlen]
    exact hInv.invoked_lt i hi
  · intro i hi
    have hi' : i < s.results.length := by rw [hlen] at hi; exact hi
    show recordMatches op i ((s.results.set s.nextIndex _).getD i default)
    rw [getD_set]
    rcases Decidable.em (s.nextIndex = i ∧ s.nextIndex < s.results.length) with h | h
    · rw [if_pos h]
      constructor
      · intro hx
        rw [hmark] at hx
        exact absurd hx (by simp)
      · intro hx
        rw [hmark] at hx
        exact absurd hx (by simp)
    · rw [if_neg h]
      exact hInv.record_ok i hi'

theorem inv_claimStartStep (op : Nat → OpResult) (s : PoolState) (w : Nat)
    (hInv : PoolInv op s)
    (hw : s.workers.getD w WorkerPC.finished = WorkerPC.idle)
    (hlt : s.nextIndex < s.results.length) :
    PoolInv op (claimStartStep s w) := by
  have hwlt : w < s.workers.length :=
    w_lt_length_of_getD _ _ _ (by rw [hw]; simp)
  have hpend : (s.results.getD s.nextIndex default).status = ItemStatus.pending :=
    hInv.unclaimed_pending s.nextIndex (Nat.le_refl _)
  have hnotin : s.nextIndex ∉ s.invoked := by
    intro hx
    have h5 := (hInv.invoked_iff s.nextIndex hlt).mpr hx
    unfold statusAt at h5
    rw [hpend] at h5
    rcases h5 with h5 | h5 | h5 <;> exact absurd h5 (by simp)
  have hstat : ∀ j, statusAt (claimStartStep s w) j =
      if s.nextIndex = j then ItemStatus.processing else statusAt s j := by
    intro j
    show ((s.results.set s.nextIndex _).getD j default).status = _
    rw [getD_set]
    rcases Decidable.em (s.nextIndex = j) with h | h
    · rw [if_pos ⟨h, hlt⟩, if_pos h]
    · rw [if_neg (fun hx => h hx.1), if_neg h]
      rfl
  have hpc : ∀ w', (claimStartStep s w).workers.getD w' WorkerPC.finished =
      if w = w' then WorkerPC.working s.nextIndex
      else s.workers.getD w' WorkerPC.finished := by
    intro w'
    show (s.workers.set w _).getD w' WorkerPC.finished = _
    rw [getD_set]
    rcases Decidable.em (w = w') with h | h
    · rw [if_pos ⟨h, hwlt⟩, if_pos h]
    · rw [if_neg (fun hx => h hx.1), if_neg h]
  have hlen : (claimStartStep s w).results.length = s.results.length :=
    List.length_set _ _ _
  refine ⟨?_, ?_, ?_, ?_, ?_, ?_, ?_, ?_, ?_, ?_, ?_, ?_⟩
  · show s.claims ++ [s.nextIndex] = List.range (s.nextIndex + 1)
    rw [hInv.claims_eq, List.range_succ]
  · intro j hj
    have hj' : s.nextIndex + 1 ≤ j := hj
    rw [hstat j, if_neg (by omega)]
    exact hInv.unclaimed_pending j (by omega)
  · intro j hj hjlen
    have hj' : j < s.nextIndex + 1 := hj
    have hjlen' : j < s.results.length := by rw [hlen] at hjlen; exact hjlen
    rw [hstat j]
    rcases Decidable.em (s.nextIndex = j) with h | h
    · rw [if_pos h]
      simp
    · rw [if_neg h]
      exact hInv.claimed_not_pending j (by omega) hjlen'
  · intro w' i hw'
    rw [hpc w'] at hw'
    rcases Decidable.em (w = w') with h | h
    · rw [if_pos h] at hw'
      have hi : i = s.nextIndex := by
        cases hw'
        rfl
      subst hi
      refine ⟨by rw [hlen]; exact hlt, show s.nextIndex < s.nextIndex + 1 by omega, ?_⟩
      rw [hstat s.nextIndex, if_pos rfl]
    · rw [if_neg h] at hw'
      obtain ⟨h1, h2, h3⟩ := hInv.working_proc w' i hw'
      refine ⟨by rw [hlen]; exact h1, show i < s.nextIndex + 1 by omega, ?_⟩
      rw [hstat i, if_neg (by omega)]
      exact h3
  · intro w1 w2 i hw1 hw2
    rw [hpc w1] at hw1
    rw [hpc w2] at hw2
    rcases Decidable.em (w = w1) with h1 | h1
    · rcases Decidable.em (w = w2) with h2 | h2
      · omega
      · rw [if_pos h1] at hw1
        rw [if_neg h2] at hw2
        have hi : i = s.nextIndex := by
          cases hw1
          rfl
        subst hi
        obtain ⟨_, h6, _⟩ := hInv.working_proc w2 s.nextIndex hw2
        omega
    · rcases Decidable.em (w = w2) with h2 | h2
      · rw [if_neg h1] at hw1
        rw [if_pos h2] at hw2
        have hi : i = s.nextIndex := by
          cases hw2
          rfl
        subst hi
        obtain ⟨_, h6, _⟩ := hInv.working_proc w1 s.nextIndex hw1
        omega
      · rw [if_neg h1] at hw1
        rw [if_neg h2] at hw2
        exact hInv.working_inj w1 w2 i hw1 hw2
  · show processingCount (s.results.set s.nextIndex
        { s.results.getD s.nextIndex default with status := ItemStatus.processing })
      = workingCount (s.workers.set w (WorkerPC.working s.nextIndex))
    rw [processingCount_eq_countP, workingCount_eq_countP]
    rw [countP_set_incr (fun r => r.status == ItemStatus.processing) s.results s.nextIndex
      { s.results.getD s.nextIndex default with status := ItemStatus.processing } default hlt
      (by show ((s.results.getD s.nextIndex default).status == ItemStatus.processing) = false
          rw [hpend]
          rfl)
      (by rfl)]
    rw [countP_set_incr (fun p => p.isWorking) s.workers w (WorkerPC.working s.nextIndex)
      WorkerPC.finished hwlt
      (by show (s.workers.getD w WorkerPC.finished).isWorking = false
          rw [hw]
          rfl)
      (by rfl)]
    have h3 := hInv.proc_eq_working
    rw [processingCount_eq_countP, workingCount_eq_countP] at h3
    omega
  · intro i hx
    rw [hstat i] at hx
    rcases Decidable.em (s.nextIndex = i) with h | h
    · rw [if_pos h] at hx
      exact absurd hx (by simp)
    · rw [if_neg h] at hx
      exact hInv.cancel_flag i hx
  · intro w' hw'len hw'
    rw [hpc w'] at hw'
    rcases Decidable.em (w = w') with h | h
    · rw [if_pos h] at hw'
      exact absurd hw' (by simp)
    · rw [if_neg h] at hw'
      have hw'len' : w' < s.workers.length := by
        have : (claimStartStep s w).workers.length = s.workers.length :=
          List.length_set _ _ _
        rw [this] at hw'len
        exact hw'len
      rcases hInv.finished_reason w' hw'len' hw' with h5 | h5
      · exact Or.inl h5
      · refine Or.inr ?_
        rw [hlen]
        show s.results.length ≤ s.nextIndex + 1
        omega
  · intro i hi
    have hi' : i < s.results.length := by rw [hlen] at hi; exact hi
    rw [hstat i]
    rcases Decidable.em (s.nextIndex = i) with h | h
    · rw [if_pos h]
      constructor
      · intro _
        rw [← h]
        exact List.mem_append.mpr (Or.inr (List.mem_singleton.mpr rfl))
      · intro _
        exact Or.inl rfl
    · rw [if_neg h]
      constructor
      · intro hx
        exact List.mem_append.mpr (Or.inl ((hInv.invoked_iff i hi').mp hx))
      · intro hx
        rcases List.mem_append.mp hx with hx | hx
        · exact (hInv.invoked_iff i hi').mpr hx
        · exact absurd (List.mem_singleton.mp hx).symm h
  · show (s.invoked ++ [s.nextIndex]).Nodup
    rw [List.nodup_append]
    refine ⟨hInv.invoked_nodup, List.nodup_singleton _, ?_⟩
    intro x hx1 hx2
    rw [List.mem_singleton.mp hx2] at hx1
    exact hnotin hx1
  · intro i hi
    rcases List.mem_append.mp hi with hx | hx
    · rw [hlen]
      exact hInv.invoked_lt i hx
    · rw [List.mem_singleton.mp hx, hlen]
      exact hlt
  · intro i hi
    have hi' : i < s.results.length := by rw [hlen] at hi; exact hi
    show recordMatches op i ((s.results.set s.nextIndex _).getD i default)
    rw [getD_set]
    rcases Decidable.em (s.nextIndex = i ∧ s.nextIndex < s.results.length) with h | h
    · rw [if_pos h]
      constructor
      · intro hx
        exact absurd hx (by simp)
      · intro hx
        exact absurd hx (by simp)
    · rw [if_neg h]
      exact hInv.record_ok i hi'

theorem inv_claimExitStep (op : Nat → OpResult) (s : PoolState) (w : Nat)
    (hInv : PoolInv op s)
    (hw : s.workers.getD w WorkerPC.finished = WorkerPC.idle)
    (hge : s.results.length ≤ s.nextIndex) :
    PoolInv op (claimExitStep s w) := by
  have hwlt : w < s.workers.length :=
    w_lt_length_of_getD _ _ _ (by rw [hw]; simp)
  have hstat : ∀ j, statusAt (claimExitStep s w) j = statusAt s j := fun _ => rfl
  have hpc : ∀ w', (claimExitStep s w).workers.getD w' WorkerPC.finished =
      if w = w' then WorkerPC.finished else s.workers.getD w' WorkerPC.finished := by
    intro w'
    show (s.workers.set w WorkerPC.finished).getD w' WorkerPC.finished = _
    rw [getD_set]
    rcases Decidable.em (w = w') with h | h
    · rw [if_pos ⟨h, hwlt⟩, if_pos h]
    · rw [if_neg (fun hx => h hx.1), if_neg h]
  refine ⟨?_, ?_, ?_, ?_, ?_, ?_, ?_, ?_, ?_, ?_, ?_, ?_⟩
  · show s.claims ++ [s.nextIndex] = List.range (s.nextIndex + 1)
    rw [hInv.claims_eq, List.range_succ]
  · intro j hj
    have hj' : s.nextIndex + 1 ≤ j := hj
    rw [hstat j]
    exact hInv.unclaimed_pending j (by omega)
  · intro j hj hjlen
    have hjlen' : j < s.results.length := hjlen
    rw [hstat j]
    exact hInv.claimed_not_pending j (by omega) hjlen'
  · intro w' i hw'
    rw [hpc w'] at hw'
    rcases Decidable.em (w = w') with h | h
    · rw [if_pos h] at hw'
      exact absurd hw' (by simp)
    · rw [if_neg h] at hw'
      obtain ⟨h1, h2, h3⟩ := hInv.working_proc w' i hw'
      exact ⟨h1, show i < s.nextIndex + 1 by omega, h3⟩
  · intro w1 w2 i hw1 hw2
    rw [hpc w1] at hw1
    rw [hpc w2] at hw2
    rcases Decidable.em (w = w1) with h1 | h1
    · rw [if_pos h1] at hw1
      exact absurd hw1 (by simp)
    · rcases Decidable.em (w = w2) with h2 | h2
      · rw [if_pos h2] at hw2
        exact absurd hw2 (by simp)
      · rw [if_neg h1] at hw1
        rw [if_neg h2] at hw2
        exact hInv.working_inj w1 w2 i hw1 hw2
  · show processingCount s.results = workingCount (s.workers.set w WorkerPC.finished)
    rw [processingCount_eq_countP, workingCount_eq_countP]
    rw [countP_set_same (fun p => p.isWorking) s.workers w WorkerPC.finished WorkerPC.finished
      hwlt
      (by show (s.workers.getD w WorkerPC.finished).isWorking = false
          rw [hw]
          rfl)
      rfl]
    have h3 := hInv.proc_eq_working
    rw [processingCount_eq_countP, workingCount_eq_countP] at h3
    exact h3
  · intro i hx
    exact hInv.cancel_flag i hx
  · intro w' _ _
    refine Or.inr ?_
    show s.results.length ≤ s.nextIndex + 1
    omega
  · intro i hi
    exact hInv.invoked_iff i hi
  · exact hInv.invoked_nodup
  · intro i hi
    exact hInv.invoked_lt i hi
  · intro i hi
    exact hInv.record_ok i hi

theorem inv_completeStep (op : Nat → OpResult) (s : PoolState) (w i : Nat)
    (hInv : PoolInv op s)
    (hw : s.workers.getD w WorkerPC.finished = WorkerPC.working i) :
    PoolInv op (completeStep op s w i) := by
  have hwlt : w < s.workers.length :=
    w_lt_length_of_getD _ _ _ (by rw [hw]; simp)
  obtain ⟨hilen, hin, hproc⟩ := hInv.working_proc w i hw
  have happ : (applyOp (s.results.getD i default) (op i)).status = ItemStatus.success ∨
      (applyOp (s.results.getD i default) (op i)).status = ItemStatus.error := by
    unfold applyOp
    cases op i with
    | ok p => exact Or.inl rfl
    | fail m => exact Or.inr rfl
  have hstat : ∀ j, statusAt (completeStep op s w i) j =
      if i = j then (applyOp (s.results.getD i default) (op i)).status
      else statusAt s j := by
    intro j
    show ((s.results.set i _).getD j default).status = _
    rw [getD_set]
    rcases Decidable.em (i = j) with h | h
    · rw [if_pos ⟨h, hilen⟩, if_pos h]
    · rw [if_neg (fun hx => h hx.1), if_neg h]
      rfl
  have hpc : ∀ w', (completeStep op s w i).workers.getD w' WorkerPC.finished =
      if w = w' then WorkerPC.idle else s.workers.getD w' WorkerPC.finished := by
    intro w'
    show (s.workers.set w WorkerPC.idle).getD w' WorkerPC.finished = _
    rw [getD_set]
    rcases Decidable.em (w = w') with h | h
    · rw [if_pos ⟨h, hwlt⟩, if_pos h]
    · rw [if_neg (fun hx => h hx.1), if_neg h]
  have hlen : (completeStep op s w i).results.length = s.results.length :=
    List.length_set _ _ _
  refine ⟨?_, ?_, ?_, ?_, ?_, ?_, ?_, ?_, ?_, ?_, ?_, ?_⟩
  · exact hInv.claims_eq
  · intro j hj
    have hj' : s.nextIndex ≤ j := hj
    rw [hstat j, if_neg (by omega)]
    exact hInv.unclaimed_pending j hj'
  · intro j hj hjlen
    have hjlen' : j < s.results.length := by rw [hlen] at hjlen; exact hjlen
    rw [hstat j]
    rcases Decidable.em (i = j) with h | h
    · rw [if_pos h]
      rcases happ with h5 | h5 <;> rw [h5] <;> simp
    · rw [if_neg h]
      exact hInv.claimed_not_pending j hj hjlen'
  · intro w' j hw'
    rw [hpc w'] at hw'
    rcases Decidable.em (w = w') with h | h
    · rw [if_pos h] at hw'
      exact absurd hw' (by simp)
    · rw [if_neg h] at hw'
      obtain ⟨h1, h2, h3⟩ := hInv.working_proc w' j hw'
      have hji : ¬(i = j) := by
        intro hx
        rw [← hx] at hw'
        exact h (hInv.working_inj w w' i hw hw')
      refine ⟨by rw [hlen]; exact h1, h2, ?_⟩
      rw [hstat j, if_neg hji]
      exact h3
  · intro w1 w2 j hw1 hw2
    rw [hpc w1] at hw1
    rw [hpc w2] at hw2
    rcases Decidable.em (w = w1) with h1 | h1
    · rw [if_pos h1] at hw1
      exact absurd hw1 (by simp)
    · rcases Decidable.em (w = w2) with h2 | h2
      · rw [if_pos h2] at hw2
        exact absurd hw2 (by simp)
      · rw [if_neg h1] at hw1
        rw [if_neg h2] at hw2
        exact hInv.working_inj w1 w2 j hw1 hw2
  · show processingCount (s.results.set i (applyOp (s.results.getD i default) (op i)))
      = workingCount (s.workers.set w WorkerPC.idle)
    rw [processingCount_eq_countP, workingCount_eq_countP]
    have e1 := countP_set_decr (fun r => r.status == ItemStatus.processing) s.results i
      (applyOp (s.results.getD i default) (op i)) default hilen
      (by show ((s.results.getD i default).status == ItemStatus.processing) = true
          unfold statusAt at hproc
          rw [hproc]
          rfl)
      (by show ((applyOp (s.results.getD i default) (op i)).status
            == ItemStatus.processing) = false
          rcases happ with h5 | h5 <;> rw [h5] <;> rfl)
    have e2 := countP_set_decr (fun p => p.isWorking) s.workers w WorkerPC.idle
      WorkerPC.finished hwlt
      (by show (s.workers.getD w WorkerPC.finished).isWorking = true
          rw [hw]
          rfl)
      rfl
    have h3 := hInv.proc_eq_working
    rw [processingCount_eq_countP, workingCount_eq_countP] at h3
    omega
  · intro j hx
    rw [hstat j] at hx
    rcases Decidable.em (i = j) with h | h
    · rw [if_pos h] at hx
      rcases happ with h5 | h5 <;> rw [h5] at hx <;> exact absurd hx (by simp)
    · rw [if_neg h] at hx
      exact hInv.cancel_flag j hx
  · intro w' hw'len hw'
    rw [hpc w'] at hw'
    rcases Decidable.em (w = w') with h | h
    · rw [if_pos h] at hw'
      exact absurd hw' (by simp)
    · rw [if_neg h] at hw'
      have hw'len' : w' < s.workers.length := by
        have hl2 : (completeStep op s w i).workers.length = s.workers.length :=
          List.length_set _ _ _
        rw [hl2] at hw'len
        exact hw'len
      rcases hInv.finished_reason w' hw'len' hw' with h5 | h5
      · exact Or.inl h5
      · refine Or.inr ?_
        rw [hlen]
        exact h5
  · intro j hj
    have hj' : j < s.results.length := by rw [hlen] at hj; exact hj
    rw [hstat j]
    rcases Decidable.em (i = j) with h | h
    · rw [if_pos h]
      have hmem : j ∈ s.invoked := by
        refine (hInv.invoked_iff j hj').mp ?_
        rw [← h]
        exact Or.inl hproc
      constructor
      · intro _
        exact hmem
      · intro _
        rcases happ with h5 | h5 <;> rw [h5]
        · exact Or.inr (Or.inl rfl)
        · exact Or.inr (Or.inr rfl)
    · rw [if_neg h]
      exact hInv.invoked_iff j hj'
  · exact hInv.invoked_nodup
  · intro j hj
    rw [hlen]
    exact hInv.invoked_lt j hj
  · intro j hj
    have hj' : j < s.results.length := by rw [hlen] at hj; exact hj
    show recordMatches op j ((s.results.set i _).getD j default)
    rw [getD_set]
    rcases Decidable.em (i = j ∧ i < s.results.length) with h | h
    · rw [if_pos h]
      rw [← h.1]
      constructor
      · intro hx
        unfold applyOp at hx ⊢
        cases hop : op i with
        | ok p => exact ⟨p, rfl, rfl⟩
        | fail m =>
          rw [hop] at hx
          exact absurd hx (by simp)
      · intro hx
        unfold applyOp at hx ⊢
        cases hop : op i with
        | ok p =>
          rw [hop] at hx
          exact absurd hx (by simp)
        | fail m => exact ⟨m, rfl, rfl⟩
    · rw [if_neg h]
      exact hInv.record_ok j hj'

theorem inv_cancelAction (op : Nat → OpResult) (s : PoolState)
    (hInv : PoolInv op s) :
    PoolInv op { s with cancelled := true } := by
  refine ⟨hInv.claims_eq, hInv.unclaimed_pending, hInv.claimed_not_pending,
    hInv.working_proc, hInv.working_inj, hInv.proc_eq_working, ?_, ?_,
    hInv.invoked_iff, hInv.invoked_nodup, hInv.invoked_lt, hInv.record_ok⟩
  · intro _ _
    rfl
  · intro _ _ _
    exact Or.inl rfl

theorem inv_workerStep (op : Nat → OpResult) (s : PoolState) (w : Nat)
    (hInv : PoolInv op s) : PoolInv op (workerStep op s w) := by
  cases hw : s.workers.getD w WorkerPC.finished with
  | finished =>
    unfold workerStep
    rw [hw]
    exact hInv
  | idle =>
    unfold workerStep
    rw [hw]
    show PoolInv op (if s.nextIndex < s.results.length then
        (if s.cancelled = true then claimCancelStep s w else claimStartStep s w)
      else claimExitStep s w)
    rcases Decidable.em (s.nextIndex < s.results.length) with hlt | hge
    · rw [if_pos hlt]
      cases hc : s.cancelled with
      | true =>
        rw [if_pos rfl]
        exact inv_claimCancelStep op s w hInv hw hlt hc
      | false =>
        rw [if_neg (by simp)]
        exact inv_claimStartStep op s w hInv hw hlt
    · rw [if_neg hge]
      exact inv_claimExitStep op s w hInv hw (Nat.le_of_not_lt hge)
  | working i =>
    unfold workerStep
    rw [hw]
    exact inv_completeStep op s w i hInv hw

theorem inv_step (op : Nat → OpResult) (s : PoolState) (a : BatchAction)
    (hInv : PoolInv op s) : PoolInv op (step op s a) := by
  cases a with
  | work w => exact inv_workerStep op s w hInv
  | cancel => exact inv_cancelAction op s hInv

theorem inv_run (op : Nat → OpResult) (s : PoolState) (tr : List BatchAction)
    (hInv : PoolInv op s) : PoolInv op (run op s tr) := by
  induction tr generalizing s with
  | nil => exact hInv
  | cons a tl ih => exact ih (step op s a) (inv_step op s a hInv)

theorem inv_runFrom (op : Nat → OpResult) (items : List String) (c : Nat)
    (tr : List BatchAction) : PoolInv op (runFrom op items c tr) :=
  inv_run op (initState items c) tr (inv_init op items c)

theorem step_results_length (op : Nat → OpResult) (s : PoolState) (a : BatchAction) :
    (step op s a).results.length = s.results.length := by
  cases a with
  | cancel => rfl
  | work w =>
    show (workerStep op s w).results.length = _
    cases hw : s.workers.getD w WorkerPC.finished with
    | finished =>
      unfold workerStep
      rw [hw]
    | idle =>
      unfold workerStep
      rw [hw]
      show (if s.nextIndex < s.results.length then
          (if s.cancelled = true then claimCancelStep s w else claimStartStep s w)
        else claimExitStep s w).results.length = _
      rcases Decidable.em (s.nextIndex < s.results.length) with hlt | hge
      · rw [if_pos hlt]
        cases hc : s.cancelled with
        | true =>
          rw [if_pos rfl]
          exact List.length_set _ _ _
        | false =>
          rw [if_neg (by simp)]
          exact List.length_set _ _ _
      · rw [if_neg hge]
        rfl
    | working i =>
      unfold workerStep
      rw [hw]
      exact List.length_set _ _ _

theorem run_results_length (op : Nat → OpResult) (s : PoolState) (tr : List BatchAction) :
    (run op s tr).results.length = s.results.length := by
  induction tr generalizing s with
  | nil => rfl
  | cons a tl ih => exact (ih (step op s a)).trans (step_results_length op s a)

theorem runFrom_results_length (op : Nat → OpResult) (items : List String) (c : Nat)
    (tr : List BatchAction) : (runFrom op items c tr).results.length = items.length := by
  show (run op (initState items c) tr).results.length = items.length
  rw [run_results_length]
  exact List.length_map _ _

theorem step_workers_length (op : Nat → OpResult) (s : PoolState) (a : BatchAction) :
    (step op s a).workers.length = s.workers.length := by
  cases a with
  | cancel => rfl
  | work w =>
    show (workerStep op s w).workers.length = _
    cases hw : s.workers.getD w WorkerPC.finished with
    | finished =>
      unfold workerStep
      rw [hw]
    | idle =>
      unfold workerStep
      rw [hw]
      show (if s.nextIndex < s.results.length then
          (if s.cancelled = true then claimCancelStep s w else claimStartStep s w)
        else claimExitStep s w).workers.length = _
      rcases Decidable.em (s.nextIndex < s.results.length) with hlt | hge
      · rw [if_pos hlt]
        cases hc : s.cancelled with
        | true =>
          rw [if_pos rfl]
          exact List.length_set _ _ _
        | false =>
          rw [if_neg (by simp)]
          exact List.length_set _ _ _
      · rw [if_neg hge]
        exact List.length_set _ _ _
    | working i =>
      unfold workerStep
      rw [hw]
      exact List.length_set _ _ _

theorem run_workers_length (op : Nat → OpResult) (s : PoolState) (tr : List BatchAction) :
    (run op s tr).workers.length = s.workers.length := by
  induction tr generalizing s with
  | nil => rfl
  | cons a tl ih => exact (ih (step op s a)).trans (step_workers_length op s a)

theorem step_cancelled_mono (op : Nat → OpResult) (s : PoolState) (a : BatchAction)
    (h : s.cancelled = true) : (step op s a).cancelled = true := by
  cases a with
  | cancel => rfl
  | work w =>
    show (workerStep op s w).cancelled = true
    cases hw : s.workers.getD w WorkerPC.finished with
    | finished =>
      unfold workerStep
      rw [hw]
      exact h
    | idle =>
      unfold workerStep
      rw [hw]
      show (if s.nextIndex < s.results.length then
          (if s.cancelled = true then claimCancelStep s w else claimStartStep s w)
        else claimExitStep s w).cancelled = true
      rcases Decidable.em (s.nextIndex < s.results.length) with hlt | hge
      · rw [if_pos hlt, if_pos h]
        exact h
      · rw [if_neg hge]
        exact h
    | working i =>
      unfold workerStep
      rw [hw]
      exact h

theorem run_cancelled_mono (op : Nat → OpResult) (s : PoolState) (tr : List BatchAction)
    (h : s.cancelled = true) : (run op s tr).cancelled = true := by
  induction tr generalizing s with
  | nil => exact h
  | cons a tl ih => exact ih (step op s a) (step_cancelled_mono op s a h)

/-! ### Consequences at pool completion -/

theorem statusAt_sweep (s : PoolState) (i : Nat) (h : i < s.results.length) :
    statusAt (sweep s) i =
      if statusAt s i = ItemStatus.pending then ItemStatus.cancelled else statusAt s i := by
  unfold statusAt sweep
  show ((s.results.map markCancelledIfPending).getD i default).status = _
  rw [getD_map_lt markCancelledIfPending s.results i default default h]
  unfold markCancelledIfPending
  rcases Decidable.em ((s.results.getD i default).status = ItemStatus.pending) with hp | hp
  · rw [if_pos hp, if_pos hp]
  · rw [if_neg hp, if_neg hp]

theorem allDone_no_processing (op : Nat → OpResult) (s : PoolState)
    (hInv : PoolInv op s) (hdone : allDone s) :
    processingCount s.results = 0 := by
  rw [hInv.proc_eq_working, workingCount_eq_countP]
  rw [List.countP_eq_zero]
  intro p hp
  rw [hdone p hp]
  simp [WorkerPC.isWorking]

theorem allDone_statusAt_not_processing (op : Nat → OpResult) (s : PoolState)
    (hInv : PoolInv op s) (hdone : allDone s) (i : Nat) (hi : i < s.results.length) :
    statusAt s i ≠ ItemStatus.processing := by
  intro hx
  have h0 := allDone_no_processing op s hInv hdone
  rw [processingCount_eq_countP, List.countP_eq_zero] at h0
  have hmem : s.results.getD i default ∈ s.results := by
    rw [List.getD_eq_getElem s.results default hi]
    exact List.getElem_mem hi
  have := h0 (s.results.getD i default) hmem
  unfold statusAt at hx
  rw [hx] at this
  simp at this

theorem allDone_nextIndex_ge (op : Nat → OpResult) (s : PoolState)
    (hInv : PoolInv op s) (hdone : allDone s) (hnc : s.cancelled = false)
    (hw : 0 < s.workers.length) :
    s.results.length ≤ s.nextIndex := by
  have hmem : s.workers.getD 0 WorkerPC.finished ∈ s.workers := by
    rw [List.getD_eq_getElem s.workers WorkerPC.finished hw]
    exact List.getElem_mem hw
  have hfin : s.workers.getD 0 WorkerPC.finished = WorkerPC.finished := hdone _ hmem
  rcases hInv.finished_reason 0 hw hfin with h | h
  · rw [hnc] at h
    exact absurd h (by simp)
  · exact h

theorem runFrom_workers_length (op : Nat → OpResult) (items : List String) (c : Nat)
    (tr : List BatchAction) :
    (runFrom op items c tr).workers.length = Nat.min c items.length := by
  show (run op (initState items c) tr).workers.length = _
  rw [run_workers_length]
  show (List.replicate (Nat.min c items.length) WorkerPC.idle).length = _
  rw [List.length_replicate]

theorem finish_results_length (s : PoolState) :
    (finish s).results.length = s.results.length := by
  unfold finish
  rcases Decidable.em (s.cancelled = true) with h | h
  · rw [if_pos h]
    exact List.length_map _ _
  · rw [if_neg h]

/-- Terminal classification of every record once all workers exited and
the sweep has run. -/
theorem final_statusAt_terminal (op : Nat → OpResult) (items : List String) (c : Nat)
    (tr : List BatchAction) (hc : 1 ≤ c)
    (hdone : allDone (runFrom op items c tr)) (i : Nat)
    (hi : i < (runFrom op items c tr).results.length) :
    (statusAt (finish (runFrom op items c tr)) i).isTerminal = true := by
  have hInv := inv_runFrom op items c tr
  have hnp := allDone_statusAt_not_processing op _ hInv hdone i hi
  unfold finish
  rcases Decidable.em ((runFrom op items c tr).cancelled = true) with hcanc | hcanc
  · rw [if_pos hcanc, statusAt_sweep _ i hi]
    rcases Decidable.em (statusAt (runFrom op items c tr) i = ItemStatus.pending) with hp | hp
    · rw [if_pos hp]
      rfl
    · rw [if_neg hp]
      cases hst : statusAt (runFrom op items c tr) i <;>
        first
          | rfl
          | exact absurd hst hp
          | exact absurd hst hnp
  · rw [if_neg hcanc]
    have hnc : (runFrom op items c tr).cancelled = false := by
      cases h5 : (runFrom op items c tr).cancelled
      · rfl
      · exact absurd h5 hcanc
    have hlen0 : 0 < items.length := by
      have := runFrom_results_length op items c tr
      omega
    have hwlen : 0 < (runFrom op items c tr).workers.length := by
      rw [runFrom_workers_length]
      exact Nat.lt_min.mpr ⟨hc, hlen0⟩
    have hge := allDone_nextIndex_ge op _ hInv hdone hnc hwlen
    have hnpend := hInv.claimed_not_pending i (by omega) hi
    cases hst : statusAt (runFrom op items c tr) i <;>
      first
        | rfl
        | exact absurd hst hnpend
        | exact absurd hst hnp

theorem not_pending_of_terminal {st : ItemStatus} (h : st.isTerminal = true) :
    st ≠ ItemStatus.pending := by
  intro hx
  rw [hx] at h
  simp [ItemStatus.isTerminal] at h

theorem not_processing_of_terminal {st : ItemStatus} (h : st.isTerminal = true) :
    st ≠ ItemStatus.processing := by
  intro hx
  rw [hx] at h
  simp [ItemStatus.isTerminal] at h

theorem no_pending_of_all_terminal (rs : List ResultRecord)
    (h : ∀ r ∈ rs, r.status.isTerminal = true) :
    pendingCount rs = 0 ∧ processingCount rs = 0 := by
  constructor
  · rw [pendingCount_eq_countP, List.countP_eq_zero]
    intro r hr
    show ¬(r.status == ItemStatus.pending) = true
    have h5 := not_pending_of_terminal (h r hr)
    rw [status_beq_eq_decide]
    simpa using h5
  · rw [processingCount_eq_countP, List.countP_eq_zero]
    intro r hr
    show ¬(r.status == ItemStatus.processing) = true
    have h5 := not_processing_of_terminal (h r hr)
    rw [status_beq_eq_decide]
    simpa using h5

/-! ### Claim theorems -/

/-- C1: for every submitted batch (any item list, any concurrency at
least 1, any injected operation outcomes, any scheduler trace with or
without cancellation), once the run completes (all workers exited and
the guarded sweep has run) every item carries one terminal status (each
record has exactly one `status` field, and it is terminal), the counts
satisfy `succeededCount + failedCount + cancelledCount = totalCount`,
and no item is left pending or processing. -/
theorem claim_C1_exhaustive (op : Nat → OpResult) (items : List String) (c : Nat)
    (tr : List BatchAction) (hc : 1 ≤ c)
    (hdone : allDone (runFrom op items c tr)) :
    (∀ i, i < (finish (runFrom op items c tr)).results.length →
      (statusAt (finish (runFrom op items c tr)) i).isTerminal = true) ∧
    succeededCount (finish (runFrom op items c tr)).results
      + failedCount (finish (runFrom op items c tr)).results
      + cancelledCount (finish (runFrom op items c tr)).results = items.length ∧
    pendingCount (finish (runFrom op items c tr)).results = 0 ∧
    processingCount (finish (runFrom op items c tr)).results = 0 := by
  have hterm : ∀ i, i < (finish (runFrom op items c tr)).results.length →
      (statusAt (finish (runFrom op items c tr)) i).isTerminal = true := by
    intro i hi
    have hi' : i < (runFrom op items c tr).results.length := by
      rw [finish_results_length] at hi
      exact hi
    exact final_statusAt_terminal op items c tr hc hdone i hi'
  have hmem : ∀ r ∈ (finish (runFrom op items c tr)).results, r.status.isTerminal = true :=
    forall_mem_of_forall_getD _ default
      (fun (r : ResultRecord) => r.status.isTerminal = true) hterm
  have hzero := no_pending_of_all_terminal _ hmem
  refine ⟨hterm, ?_, hzero.1, hzero.2⟩
  rw [counts_sum_of_terminal _ hmem, finish_results_length, runFrom_results_length]

theorem claim_C1_exhaustive_witness :
    1 ≤ 2 ∧
    allDone (runFrom (fun i => if i = 0 then OpResult.ok "u" else OpResult.fail "m")
      ["a", "b"] 2
      [BatchAction.work 0, BatchAction.work 1, BatchAction.work 0,
        BatchAction.work 1, BatchAction.work 0, BatchAction.work 1]) ∧
    ((∀ i, i < (finish (runFrom (fun i => if i = 0 then OpResult.ok "u" else OpResult.fail "m")
        ["a", "b"] 2
        [BatchAction.work 0, BatchAction.work 1, BatchAction.work 0,
          BatchAction.work 1, BatchAction.work 0, BatchAction.work 1])).results.length →
      (statusAt (finish (runFrom (fun i => if i = 0 then OpResult.ok "u" else OpResult.fail "m")
        ["a", "b"] 2
        [BatchAction.work 0, BatchAction.work 1, BatchAction.work 0,
          BatchAction.work 1, BatchAction.work 0, BatchAction.work 1])) i).isTerminal = true) ∧
    succeededCount (finish (runFrom (fun i => if i = 0 then OpResult.ok "u" else OpResult.fail "m")
        ["a", "b"] 2
        [BatchAction.work 0, BatchAction.work 1, BatchAction.work 0,
          BatchAction.work 1, BatchAction.work 0, BatchAction.work 1])).results
      + failedCount (finish (runFrom (fun i => if i = 0 then OpResult.ok "u" else OpResult.fail "m")
        ["a", "b"] 2
        [BatchAction.work 0, BatchAction.work 1, BatchAction.work 0,
          BatchAction.work 1, BatchAction.work 0, BatchAction.work 1])).results
      + cancelledCount (finish (runFrom (fun i => if i = 0 then OpResult.ok "u" else OpResult.fail "m")
        ["a", "b"] 2
        [BatchAction.work 0, BatchAction.work 1, BatchAction.work 0,
          BatchAction.work 1, BatchAction.work 0, BatchAction.work 1])).results
      = (["a", "b"] : List String).length ∧
    pendingCount (finish (runFrom (fun i => if i = 0 then OpResult.ok "u" else OpResult.fail "m")
        ["a", "b"] 2
        [BatchAction.work 0, BatchAction.work 1, BatchAction.work 0,
          BatchAction.work 1, BatchAction.work 0, BatchAction.work 1])).results = 0 ∧
    processingCount (finish (runFrom (fun i => if i = 0 then OpResult.ok "u" else OpResult.fail "m")
        ["a", "b"] 2
        [BatchAction.work 0, BatchAction.work 1, BatchAction.work 0,
          BatchAction.work 1, BatchAction.work 0, BatchAction.work 1])).results = 0) :=
  ⟨by decide, by decide,
    claim_C1_exhaustive (fun i => if i = 0 then OpResult.ok "u" else OpResult.fail "m")
      ["a", "b"] 2
      [BatchAction.work 0, BatchAction.work 1, BatchAction.work 0,
        BatchAction.work 1, BatchAction.work 0, BatchAction.work 1]
      (by decide) (by decide)⟩

/-- C2: the ghost claim history of any run is exactly
`0, 1, ..., nextIndex-1`: no index is handed out twice (at-most-once),
and when the run completes without cancellation every index below the
item count was handed out exactly once (no skip). -/
theorem claim_C2_cursor (op : Nat → OpResult) (items : List String) (c : Nat)
    (tr : List BatchAction) (hc : 1 ≤ c) :
    (runFrom op items c tr).claims = List.range (runFrom op items c tr).nextIndex ∧
    (runFrom op items c tr).claims.Nodup ∧
    (allDone (runFrom op items c tr) →
      (runFrom op items c tr).cancelled = false →
      ∀ i, i < items.length → (runFrom op items c tr).claims.count i = 1) := by
  have hInv := inv_runFrom op items c tr
  refine ⟨hInv.claims_eq, by rw [hInv.claims_eq]; exact List.nodup_range _, ?_⟩
  intro hdone hnc i hi
  have hlen := runFrom_results_length op items c tr
  have hwlen : 0 < (runFrom op items c tr).workers.length := by
    rw [runFrom_workers_length]
    exact Nat.lt_min.mpr ⟨hc, by omega⟩
  have hge := allDone_nextIndex_ge op _ hInv hdone hnc hwlen
  rw [hInv.claims_eq]
  have hmem : i ∈ List.range (runFrom op items c tr).nextIndex :=
    List.mem_range.mpr (by omega)
  exact List.count_eq_one_of_mem (List.nodup_range _) hmem

theorem claim_C2_cursor_witness :
    1 ≤ 1 ∧
    ((runFrom (fun _ => OpResult.ok "u") ["a"] 1
        [BatchAction.work 0, BatchAction.work 0, BatchAction.work 0]).claims
      = List.range (runFrom (fun _ => OpResult.ok "u") ["a"] 1
        [BatchAction.work 0, BatchAction.work 0, BatchAction.work 0]).nextIndex ∧
    (runFrom (fun _ => OpResult.ok "u") ["a"] 1
        [BatchAction.work 0, BatchAction.work 0, BatchAction.work 0]).claims.Nodup ∧
    (allDone (runFrom (fun _ => OpResult.ok "u") ["a"] 1
        [BatchAction.work 0, BatchAction.work 0, BatchAction.work 0]) →
      (runFrom (fun _ => OpResult.ok "u") ["a"] 1
        [BatchAction.work 0, BatchAction.work 0, BatchAction.work 0]).cancelled = false →
      ∀ i, i < (["a"] : List String).length →
        (runFrom (fun _ => OpResult.ok "u") ["a"] 1
          [BatchAction.work 0, BatchAction.work 0, BatchAction.work 0]).claims.count i = 1)) :=
  ⟨by decide,
    claim_C2_cursor (fun _ => OpResult.ok "u") ["a"] 1
      [BatchAction.work 0, BatchAction.work 0, BatchAction.work 0] (by decide)⟩

theorem step_preserves_terminal_record (op : Nat → OpResult) (s : PoolState)
    (a : BatchAction) (i : Nat) (hInv : PoolInv op s)
    (hterm : (statusAt s i).isTerminal = true) :
    (step op s a).results.getD i default = s.results.getD i default := by
  cases a with
  | cancel => rfl
  | work w =>
    show (workerStep op s w).results.getD i default = _
    cases hw : s.workers.getD w WorkerPC.finished with
    | finished =>
      unfold workerStep
      rw [hw]
    | idle =>
      unfold workerStep
      rw [hw]
      show (if s.nextIndex < s.results.length then
          (if s.cancelled = true then claimCancelStep s w else claimStartStep s w)
        else claimExitStep s w).results.getD i default = _
      have hne : s.nextIndex ≠ i := by
        intro hx
        have h5 := hInv.unclaimed_pending s.nextIndex (Nat.le_refl _)
        rw [hx] at h5
        exact not_pending_of_terminal hterm h5
      rcases Decidable.em (s.nextIndex < s.results.length) with hlt | hge
      · rw [if_pos hlt]
        cases hcc : s.cancelled with
        | true =>
          rw [if_pos rfl]
          exact getD_set_ne _ _ _ _ _ hne
        | false =>
          rw [if_neg (by simp)]
          exact getD_set_ne _ _ _ _ _ hne
      · rw [if_neg hge]
        rfl
    | working j =>
      unfold workerStep
      rw [hw]
      have hne : j ≠ i := by
        intro hx
        obtain ⟨_, _, h3⟩ := hInv.working_proc w j hw
        rw [hx] at h3
        unfold statusAt at h3
        exact not_processing_of_terminal hterm h3
      exact getD_set_ne _ _ _ _ _ hne

theorem run_preserves_terminal_record (op : Nat → OpResult) (s : PoolState)
    (tr2 : List BatchAction) (i : Nat) (hInv : PoolInv op s)
    (hterm : (statusAt s i).isTerminal = true) :
    (run op s tr2).results.getD i default = s.results.getD i default := by
  induction tr2 generalizing s with
  | nil => rfl
  | cons a tl ih =>
    have h1 := step_preserves_terminal_record op s a i hInv hterm
    have h2 : statusAt (step op s a) i = statusAt s i := by
      unfold statusAt
      rw [h1]
    have h3 := ih (step op s a) (inv_step op s a hInv) (by rw [h2]; exact hterm)
    exact h3.trans h1

theorem finish_preserves_terminal_record (s : PoolState) (i : Nat)
    (hterm : (statusAt s i).isTerminal = true) :
    (finish s).results.getD i default = s.results.getD i default := by
  unfold finish
  rcases Decidable.em (s.cancelled = true) with hcc | hcc
  · rw [if_pos hcc]
    show (s.results.map markCancelledIfPending).getD i default = _
    rcases Decidable.em (i < s.results.length) with hi | hi
    · rw [getD_map_lt markCancelledIfPending s.results i default default hi]
      unfold markCancelledIfPending
      rw [if_neg (show ¬(s.results.getD i default).status = ItemStatus.pending from
        not_pending_of_terminal hterm)]
    · have hge := Nat.le_of_not_lt hi
      rw [getD_of_ge _ _ _ (by simpa using hge), getD_of_ge _ _ _ hge]
  · rw [if_neg hcc]

/-- C4: once a record is in a terminal status, no later scheduler step
(any worker segment, any cancellation timing) and not the final sweep
changes that record in any way. -/
theorem claim_C4_terminal_immutable (op : Nat → OpResult) (items : List String) (c : Nat)
    (tr tr2 : List BatchAction) (i : Nat)
    (hterm : (statusAt (runFrom op items c tr) i).isTerminal = true) :
    (run op (runFrom op items c tr) tr2).results.getD i default
        = (runFrom op items c tr).results.getD i default ∧
    (finish (run op (runFrom op items c tr) tr2)).results.getD i default
        = (runFrom op items c tr).results.getD i default := by
  have hInv := inv_runFrom op items c tr
  have h1 := run_preserves_terminal_record op _ tr2 i hInv hterm
  have hterm2 : (statusAt (run op (runFrom op items c tr) tr2) i).isTerminal = true := by
    unfold statusAt
    rw [h1]
    exact hterm
  have h2 := finish_preserves_terminal_record _ i hterm2
  exact ⟨h1, h2.trans h1⟩

theorem claim_C4_terminal_immutable_witness :
    (statusAt (runFrom (fun _ => OpResult.ok "u") ["a"] 1
        [BatchAction.work 0, BatchAction.work 0]) 0).isTerminal = true ∧
    ((run (fun _ => OpResult.ok "u")
        (runFrom (fun _ => OpResult.ok "u") ["a"] 1 [BatchAction.work 0, BatchAction.work 0])
        [BatchAction.cancel, BatchAction.work 0]).results.getD 0 default
      = (runFrom (fun _ => OpResult.ok "u") ["a"] 1
        [BatchAction.work 0, BatchAction.work 0]).results.getD 0 default ∧
    (finish (run (fun _ => OpResult.ok "u")
        (runFrom (fun _ => OpResult.ok "u") ["a"] 1 [BatchAction.work 0, BatchAction.work 0])
        [BatchAction.cancel, BatchAction.work 0])).results.getD 0 default
      = (runFrom (fun _ => OpResult.ok "u") ["a"] 1
        [BatchAction.work 0, BatchAction.work 0]).results.getD 0 default) :=
  ⟨by decide,
    claim_C4_terminal_immutable (fun _ => OpResult.ok "u") ["a"] 1
      [BatchAction.work 0, BatchAction.work 0] [BatchAction.cancel, BatchAction.work 0] 0
      (by decide)⟩

/-- C7: the pool starts `Math.min(concurrency, totalCount)` workers, and
at every point of every run at most that many records are
simultaneously in `processing`. -/
theorem claim_C7_bounded_concurrency (op : Nat → OpResult) (items : List String) (c : Nat)
    (tr : List BatchAction) :
    (initState items c).workers.length = Nat.min c items.length ∧
    processingCount (runFrom op items c tr).results ≤ Nat.min c items.length := by
  have h1 : (initState items c).workers.length = Nat.min c items.length := by
    show (List.replicate (Nat.min c items.length) WorkerPC.idle).length = _
    rw [List.length_replicate]
  refine ⟨h1, ?_⟩
  have hInv := inv_runFrom op items c tr
  rw [hInv.proc_eq_working, workingCount_eq_countP]
  have h2 := runFrom_workers_length op items c tr
  calc (runFrom op items c tr).workers.countP (fun p => p.isWorking)
      ≤ (runFrom op items c tr).workers.length := List.countP_le_length _
    _ = Nat.min c items.length := h2

/-- C6: for every item index, the injected operation is started at most
once during the whole run (no automatic retry), and for an item whose
record is committed as `success` or `error` the operation was started
exactly once and the committed record carries exactly that operation's
payload or error message. -/
theorem claim_C6_exactly_once (op : Nat → OpResult) (items : List String) (c : Nat)
    (tr : List BatchAction) (i : Nat) (hi : i < items.length) :
    (runFrom op items c tr).invoked.count i ≤ 1 ∧
    ((statusAt (runFrom op items c tr) i = ItemStatus.success ∨
      statusAt (runFrom op items c tr) i = ItemStatus.error) →
      (runFrom op items c tr).invoked.count i = 1 ∧
      recordMatches op i ((runFrom op items c tr).results.getD i default)) := by
  have hInv := inv_runFrom op items c tr
  have hlen := runFrom_results_length op items c tr
  constructor
  · exact List.nodup_iff_count_le_one.mp hInv.invoked_nodup i
  · intro hx
    have hmem : i ∈ (runFrom op items c tr).invoked :=
      (hInv.invoked_iff i (by omega)).mp (Or.inr hx)
    exact ⟨List.count_eq_one_of_mem hInv.invoked_nodup hmem,
      hInv.record_ok i (by omega)⟩

theorem claim_C6_exactly_once_witness :
    0 < (["a"] : List String).length ∧
    ((runFrom (fun _ => OpResult.fail "m") ["a"] 1
        [BatchAction.work 0, BatchAction.work 0]).invoked.count 0 ≤ 1 ∧
    ((statusAt (runFrom (fun _ => OpResult.fail "m") ["a"] 1
        [BatchAction.work 0, BatchAction.work 0]) 0 = ItemStatus.success ∨
      statusAt (runFrom (fun _ => OpResult.fail "m") ["a"] 1
        [BatchAction.work 0, BatchAction.work 0]) 0 = ItemStatus.error) →
      (runFrom (fun _ => OpResult.fail "m") ["a"] 1
        [BatchAction.work 0, BatchAction.work 0]).invoked.count 0 = 1 ∧
      recordMatches (fun _ => OpResult.fail "m") 0
        ((runFrom (fun _ => OpResult.fail "m") ["a"] 1
          [BatchAction.work 0, BatchAction.work 0]).results.getD 0 default))) :=
  ⟨by decide,
    claim_C6_exactly_once (fun _ => OpResult.fail "m") ["a"] 1
      [BatchAction.work 0, BatchAction.work 0] 0 (by decide)⟩

/-- C10: the progress accessor is total: on the empty pre-submission
result list it returns `0` through its explicit guard rather than
dividing by zero, and on every result list its value lies in `[0, 100]`. -/
theorem claim_C10_progress_total :
    getProgress ([] : List ResultRecord) = 0 ∧
    ∀ rs : List ResultRecord, 0 ≤ getProgress rs ∧ getProgress rs ≤ 100 := by
  constructor
  · rfl
  · intro rs
    unfold getProgress
    rcases Decidable.em (rs.length = 0) with h | h
    · rw [if_pos h]
      norm_num
    · rw [if_neg h]
      have hlen : 0 < rs.length := Nat.pos_of_ne_zero h
      have hlenq : (0 : ℚ) < (rs.length : ℚ) := by exact_mod_cast hlen
      have hfil := List.length_filter_le (fun r =>
        r.status == ItemStatus.success || r.status == ItemStatus.error ||
          r.status == ItemStatus.cancelled) rs
      have hfq : (((rs.filter (fun r =>
          r.status == ItemStatus.success || r.status == ItemStatus.error ||
            r.status == ItemStatus.cancelled)).length : ℚ)) ≤ (rs.length : ℚ) := by
        exact_mod_cast hfil
      constructor
      · apply mul_nonneg
        · apply div_nonneg
          · exact_mod_cast Nat.zero_le _
          · exact le_of_lt hlenq
        · norm_num
      · have hdiv : (((rs.filter (fun r =>
            r.status == ItemStatus.success || r.status == ItemStatus.error ||
              r.status == ItemStatus.cancelled)).length : ℚ)) / (rs.length : ℚ) ≤ 1 :=
          (div_le_one hlenq).mpr hfq
        calc (((rs.filter (fun r =>
              r.status == ItemStatus.success || r.status == ItemStatus.error ||
                r.status == ItemStatus.cancelled)).length : ℚ)) / (rs.length : ℚ) * 100
            ≤ 1 * 100 := by
              apply mul_le_mul_of_nonneg_right hdiv
              norm_num
          _ = 100 := by norm_num

/-! ### Deduplication properties -/

theorem foldl_insertLast_spec (l : List String) : ∀ acc : List String,
    ∃ t, l.foldl insertLast acc = acc ++ t ∧ t.Sublist l ∧ (∀ y ∈ t, y ∉ acc) := by
  induction l with
  | nil => exact fun acc => ⟨[], by simp, List.nil_sublist _, by simp⟩
  | cons x xs ih =>
    intro acc
    rcases Decidable.em (x ∈ acc) with hx | hx
    · obtain ⟨t, h1, h2, h3⟩ := ih acc
      refine ⟨t, ?_, List.Sublist.cons x h2, h3⟩
      have hins : insertLast acc x = acc := by
        unfold insertLast
        rw [if_pos hx]
      rw [List.foldl_cons, hins]
      exact h1
    · obtain ⟨t, h1, h2, h3⟩ := ih (acc ++ [x])
      refine ⟨x :: t, ?_, List.Sublist.cons₂ x h2, ?_⟩
      · have hins : insertLast acc x = acc ++ [x] := by
          unfold insertLast
          rw [if_neg hx]
        rw [List.foldl_cons, hins, h1, List.append_assoc, List.singleton_append]
      · intro y hy
        rcases List.mem_cons.mp hy with rfl | hy
        · exact hx
        · intro hya
          exact h3 y hy (List.mem_append.mpr (Or.inl hya))

theorem foldl_insertLast_nodup (l : List String) : ∀ acc : List String,
    acc.Nodup → (l.foldl insertLast acc).Nodup := by
  induction l with
  | nil => exact fun _ h => h
  | cons x xs ih =>
    intro acc h
    rw [List.foldl_cons]
    apply ih
    unfold insertLast
    rcases Decidable.em (x ∈ acc) with hx | hx
    · rw [if_pos hx]
      exact h
    · rw [if_neg hx, List.nodup_append]
      refine ⟨h, List.nodup_singleton _, ?_⟩
      intro y hy1 hy2
      rw [List.mem_singleton.mp hy2] at hy1
      exact hx hy1

theorem foldl_insertLast_mem (l : List String) : ∀ (acc : List String) (x : String),
    x ∈ l.foldl insertLast acc ↔ x ∈ acc ∨ x ∈ l := by
  induction l with
  | nil => simp
  | cons y ys ih =>
    intro acc x
    rw [List.foldl_cons, ih]
    have hins : x ∈ insertLast acc y ↔ x ∈ acc ∨ x = y := by
      unfold insertLast
      rcases Decidable.em (y ∈ acc) with hy | hy
      · rw [if_pos hy]
        constructor
        · exact Or.inl
        · intro h
          rcases h with h | h
          · exact h
          · rw [h]
            exact hy
      · rw [if_neg hy]
        rw [List.mem_append, List.mem_singleton]
    rw [hins]
    constructor
    · intro h
      rcases h with (h | h) | h
      · exact Or.inl h
      · exact Or.inr (by rw [h]; exact List.mem_cons_self _ _)
      · exact Or.inr (List.mem_cons_of_mem _ h)
    · intro h
      rcases h with h | h
      · exact Or.inl (Or.inl h)
      · rcases List.mem_cons.mp h with h | h
        · exact Or.inl (Or.inr h)
        · exact Or.inr h

theorem dedupFirst_nodup (l : List String) : (dedupFirst l).Nodup :=
  foldl_insertLast_nodup l [] List.nodup_nil

theorem dedupFirst_sublist (l : List String) : (dedupFirst l).Sublist l := by
  obtain ⟨t, h1, h2, _⟩ := foldl_insertLast_spec l []
  unfold dedupFirst
  rw [h1, List.nil_append]
  exact h2

theorem dedupFirst_mem (l : List String) (x : String) : x ∈ dedupFirst l ↔ x ∈ l := by
  have h := foldl_insertLast_mem l [] x
  unfold dedupFirst
  rw [h]
  simp

/-- C5 counterexample: the status-refresh call site
(`BatchRefreshModal.startProcessing`) builds its work list from the
caller-supplied `organizationUuids` verbatim: submitting
`["a","b","a","c","b"]` there yields a five-entry work list with both
duplicates retained, not the deduplicated `["a","b","c"]` that the
claim asserts for both call sites (the credential-add site does
deduplicate, as the last conjunct shows). -/
theorem claim_C5_dedup_cex :
    refreshInitialResults ["a", "b", "a", "c", "b"]
      = [⟨"a", ItemStatus.pending, none, none, none⟩,
         ⟨"b", ItemStatus.pending, none, none, none⟩,
         ⟨"a", ItemStatus.pending, none, none, none⟩,
         ⟨"c", ItemStatus.pending, none, none, none⟩,
         ⟨"b", ItemStatus.pending, none, none, none⟩] ∧
    (refreshInitialResults ["a", "b", "a", "c", "b"]).map RefreshResultItem.organizationUuid
      ≠ ["a", "b", "c"] ∧
    dedupFirst ["a", "b", "a", "c", "b"] = ["a", "b", "c"] := by
  refine ⟨by decide, by decide, by decide⟩

/-- C5 amended: the credential-add call site deduplicates the
caller-supplied inputs exact-match, preserving first-occurrence order
(the result is duplicate-free, is a subsequence of the input, and keeps
exactly the input's values), and reports the number of removed
duplicates: `["a","b","a","c","b"]` yields `["a","b","c"]` with 2
removed.  The status-refresh call site performs no deduplication: its
work list is the caller-supplied list verbatim. -/
theorem claim_C5_dedup_amended :
    dedupFirst ["a", "b", "a", "c", "b"] = ["a", "b", "c"] ∧
    (["a", "b", "a", "c", "b"] : List String).length
      - (dedupFirst ["a", "b", "a", "c", "b"]).length = 2 ∧
    handleSubmitPhase ["a", "b", "a", "c", "b"] 3
      = SubmitOutcome.started
          ((["a", "b", "c"] : List String).map
            (fun x => ⟨x, ItemStatus.pending, none, none⟩)) 3 2 ∧
    (∀ l : List String, (dedupFirst l).Nodup ∧ (dedupFirst l).Sublist l ∧
      ∀ x, x ∈ dedupFirst l ↔ x ∈ l) ∧
    (∀ uuids : List String,
      (refreshInitialResults uuids).map RefreshResultItem.organizationUuid = uuids) := by
  refine ⟨by decide, by decide, by decide, ?_, ?_⟩
  · intro l
    exact ⟨dedupFirst_nodup l, dedupFirst_sublist l, dedupFirst_mem l⟩
  · intro uuids
    unfold refreshInitialResults
    rw [List.map_map]
    exact List.map_id _

theorem step_results_no_workers (op : Nat → OpResult) (s : PoolState) (a : BatchAction)
    (h : s.workers.length = 0) : (step op s a).results = s.results := by
  cases a with
  | cancel => rfl
  | work w =>
    have hfin : s.workers.getD w WorkerPC.finished = WorkerPC.finished :=
      getD_of_ge _ _ _ (by omega)
    show (workerStep op s w).results = s.results
    unfold workerStep
    rw [hfin]

theorem run_results_no_workers (op : Nat → OpResult) (s : PoolState) (tr : List BatchAction)
    (h : s.workers.length = 0) : (run op s tr).results = s.results := by
  induction tr generalizing s with
  | nil => rfl
  | cons a tl ih =>
    have h2 : (step op s a).workers.length = 0 := by
      rw [step_workers_length]
      exact h
    exact (ih (step op s a) h2).trans (step_results_no_workers op s a h)

/-- C8 counterexample: the code performs no concurrency validation.  A
submission of the single line `"a"` with requested concurrency `0`
(below 1) is not rejected: it creates the pending record, sizes the
pool to zero workers, and — the run then completing trivially with no
worker and, without cancellation, no sweep — leaves the item pending
forever, contradicting both the claimed synchronous
`InvalidConcurrencyError` and the claim that no item status is ever
created for such a submission. -/
theorem claim_C8_validation_cex :
    handleSubmitPhase ["a"] 0
      = SubmitOutcome.started [⟨"a", ItemStatus.pending, none, none⟩] 0 0 ∧
    allDone (runFrom (fun _ => OpResult.ok "u") ["a"] 0 []) ∧
    statusAt (finish (runFrom (fun _ => OpResult.ok "u") ["a"] 0 [])) 0
      = ItemStatus.pending := by
  refine ⟨by decide, by decide, by decide⟩

/-- C8 amended: a submission with zero items is rejected synchronously
(an early `return` before any record is created or worker starts),
though no explicit error value is surfaced; requested concurrency is
not validated at all — a submission with concurrency `0` creates
pending records, starts `min(0, totalCount) = 0` workers, completes
trivially (`allDone` holds vacuously), and, absent cancellation, leaves
every item pending. -/
theorem claim_C8_submission_amended (c : Nat) (op : Nat → OpResult) (tr : List BatchAction)
    (hnc : (runFrom op ["a"] 0 tr).cancelled = false) :
    handleSubmitPhase [] c = SubmitOutcome.rejected ∧
    handleSubmitPhase ["a"] 0
      = SubmitOutcome.started [⟨"a", ItemStatus.pending, none, none⟩] 0 0 ∧
    allDone (runFrom op ["a"] 0 tr) ∧
    statusAt (finish (runFrom op ["a"] 0 tr)) 0 = ItemStatus.pending := by
  have hwl : (initState ["a"] 0).workers.length = 0 := by decide
  have hrw : (runFrom op ["a"] 0 tr).workers.length = 0 := by
    show (run op (initState ["a"] 0) tr).workers.length = 0
    rw [run_workers_length]
    exact hwl
  have hres : (runFrom op ["a"] 0 tr).results = (initState ["a"] 0).results :=
    run_results_no_workers op (initState ["a"] 0) tr hwl
  refine ⟨rfl, by decide, ?_, ?_⟩
  · intro p hp
    rw [List.eq_nil_of_length_eq_zero hrw] at hp
    exact absurd hp (List.not_mem_nil p)
  · unfold finish
    rw [if_neg (by rw [hnc]; simp)]
    unfold statusAt
    rw [hres]
    decide

theorem claim_C8_submission_amended_witness :
    (runFrom (fun _ => OpResult.ok "u") ["a"] 0 []).cancelled = false ∧
    (handleSubmitPhase [] 3 = SubmitOutcome.rejected ∧
    handleSubmitPhase ["a"] 0
      = SubmitOutcome.started [⟨"a", ItemStatus.pending, none, none⟩] 0 0 ∧
    allDone (runFrom (fun _ => OpResult.ok "u") ["a"] 0 []) ∧
    statusAt (finish (runFrom (fun _ => OpResult.ok "u") ["a"] 0 [])) 0
      = ItemStatus.pending) :=
  ⟨by decide,
    claim_C8_submission_amended 3 (fun _ => OpResult.ok "u") [] (by decide)⟩

/-- C9 counterexample: the reported progress value is not the fraction
`terminalCount / totalCount`: on a single succeeded record `getProgress`
returns `100` while the fraction is `1`, so the claimed equality (and
the claimed final value `1.0` of the end-to-end scenario) fails — the
accessor scales the fraction by 100. -/
theorem claim_C9_progress_cex :
    getProgress [⟨"a", ItemStatus.success, none, some "u"⟩] = 100 ∧
    ((terminalCount [⟨"a", ItemStatus.success, none, some "u"⟩] : ℚ)
      / ((([⟨"a", ItemStatus.success, none, some "u"⟩] : List ResultRecord)).length : ℚ)) = 1 ∧
    (100 : ℚ) ≠ 1 := by
  refine ⟨?_, ?_, by norm_num⟩
  · norm_num [getProgress, List.filter]
  · norm_num [terminalCount, List.filter, ItemStatus.isTerminal]

/-- C9 amended: at every state the reported progress value equals
`100 * terminalCount / totalCount` (the terminal fraction expressed as
a percentage); in the end-to-end scenario (items `[A,B,C]`, concurrency
2, operation succeeding for A and C and failing for B with message
`"invalid"`) the final state is `{A: success, B: error "invalid",
C: success}` and the final reported value is `100`. -/
theorem claim_C9_progress_amended (rs : List ResultRecord) (hne : rs ≠ []) :
    getProgress rs = 100 * (terminalCount rs : ℚ) / (rs.length : ℚ) ∧
    (finish (runFrom opE2E ["A", "B", "C"] 2 trE2E)).results
      = [⟨"A", ItemStatus.success, none, some "uuid"⟩,
         ⟨"B", ItemStatus.error, some "invalid", none⟩,
         ⟨"C", ItemStatus.success, none, some "uuid"⟩] ∧
    getProgress (finish (runFrom opE2E ["A", "B", "C"] 2 trE2E)).results = 100 := by
  refine ⟨?_, by decide, ?_⟩
  · have hne0 : ¬rs.length = 0 := by
      simpa [List.length_eq_zero] using hne
    unfold getProgress
    rw [if_neg hne0]
    have hfe : rs.filter (fun r =>
        r.status == ItemStatus.success || r.status == ItemStatus.error ||
          r.status == ItemStatus.cancelled)
        = rs.filter (fun r => r.status.isTerminal) := by
      apply List.filter_congr
      intro x _
      show (x.status == ItemStatus.success || x.status == ItemStatus.error ||
        x.status == ItemStatus.cancelled) = x.status.isTerminal
      cases hst : x.status <;> rfl
    rw [hfe]
    unfold terminalCount
    ring
  · rw [show (finish (runFrom opE2E ["A", "B", "C"] 2 trE2E)).results
        = [⟨"A", ItemStatus.success, none, some "uuid"⟩,
           ⟨"B", ItemStatus.error, some "invalid", none⟩,
           ⟨"C", ItemStatus.success, none, some "uuid"⟩] from by decide]
    norm_num [getProgress, List.filter]

theorem claim_C9_progress_amended_witness :
    ([⟨"a", ItemStatus.error, some "m", none⟩] : List ResultRecord) ≠ [] ∧
    (getProgress [⟨"a", ItemStatus.error, some "m", none⟩]
        = 100 * (terminalCount [⟨"a", ItemStatus.error, some "m", none⟩] : ℚ)
          / ((([⟨"a", ItemStatus.error, some "m", none⟩] : List ResultRecord)).length : ℚ) ∧
    (finish (runFrom opE2E ["A", "B", "C"] 2 trE2E)).results
      = [⟨"A", ItemStatus.success, none, some "uuid"⟩,
         ⟨"B", ItemStatus.error, some "invalid", none⟩,
         ⟨"C", ItemStatus.success, none, some "uuid"⟩] ∧
    getProgress (finish (runFrom opE2E ["A", "B", "C"] 2 trE2E)).results = 100) :=
  ⟨by decide,
    claim_C9_progress_amended [⟨"a", ItemStatus.error, some "m", none⟩] (by decide)⟩

/-! ### The post-cancellation phase (claim C3) -/

theorem frozen_claimCancelStep (base s : PoolState) (w : Nat)
    (hf : FrozenFrom base s) :
    FrozenFrom base (claimCancelStep s w) := by
  obtain ⟨hc, hlen, hnw, hrec⟩ := hf
  refine ⟨hc, ?_, ?_, ?_⟩
  · show (s.results.set _ _).length = base.results.length
    rw [List.length_set]
    exact hlen
  · intro w' i
    show (s.workers.set w WorkerPC.finished).getD w' WorkerPC.finished ≠ WorkerPC.working i
    rw [getD_set]
    rcases Decidable.em (w = w' ∧ w < s.workers.length) with h | h
    · rw [if_pos h]
      simp
    · rw [if_neg h]
      exact hnw w' i
  · intro i hi
    show (s.results.set s.nextIndex
        (markCancelledIfPending (s.results.getD s.nextIndex default))).getD i default
        = base.results.getD i default ∨
      (statusAt base i = ItemStatus.pending ∧
        (s.results.set s.nextIndex
          (markCancelledIfPending (s.results.getD s.nextIndex default))).getD i default
          = { base.results.getD i default with status := ItemStatus.cancelled })
    rw [getD_set]
    rcases Decidable.em (s.nextIndex = i ∧ s.nextIndex < s.results.length) with h | h
    · rw [if_pos h, h.1]
      rcases hrec i hi with hA | hB
      · rcases Decidable.em ((s.results.getD i default).status = ItemStatus.pending)
          with hp | hp
        · refine Or.inr ⟨?_, ?_⟩
          · show (base.results.getD i default).status = ItemStatus.pending
            rw [← hA]
            exact hp
          · unfold markCancelledIfPending
            rw [if_pos hp, hA]
        · refine Or.inl ?_
          unfold markCancelledIfPending
          rw [if_neg hp]
          exact hA
      · refine Or.inr ⟨hB.1, ?_⟩
        have hcst : (s.results.getD i default).status = ItemStatus.cancelled := by
          rw [hB.2]
        unfold markCancelledIfPending
        rw [if_neg (by rw [hcst]; simp)]
        exact hB.2
    · rw [if_neg h]
      exact hrec i hi

theorem frozen_claimExitStep (base s : PoolState) (w : Nat)
    (hf : FrozenFrom base s) : FrozenFrom base (claimExitStep s w) := by
  obtain ⟨hc, hlen, hnw, hrec⟩ := hf
  refine ⟨hc, hlen, ?_, hrec⟩
  intro w' i
  show (s.workers.set w WorkerPC.finished).getD w' WorkerPC.finished ≠ WorkerPC.working i
  rw [getD_set]
  rcases Decidable.em (w = w' ∧ w < s.workers.length) with h | h
  · rw [if_pos h]
    simp
  · rw [if_neg h]
    exact hnw w' i

theorem frozen_step (op : Nat → OpResult) (base s : PoolState) (a : BatchAction)
    (hf : FrozenFrom base s) : FrozenFrom base (step op s a) := by
  cases a with
  | cancel => exact ⟨rfl, hf.2.1, hf.2.2.1, hf.2.2.2⟩
  | work w =>
    show FrozenFrom base (workerStep op s w)
    cases hw : s.workers.getD w WorkerPC.finished with
    | finished =>
      unfold workerStep
      rw [hw]
      exact hf
    | idle =>
      unfold workerStep
      rw [hw]
      show FrozenFrom base (if s.nextIndex < s.results.length then
          (if s.cancelled = true then claimCancelStep s w else claimStartStep s w)
        else claimExitStep s w)
      rcases Decidable.em (s.nextIndex < s.results.length) with hlt | hge
      · rw [if_pos hlt, if_pos hf.1]
        exact frozen_claimCancelStep base s w hf
      · rw [if_neg hge]
        exact frozen_claimExitStep base s w hf
    | working i =>
      exact absurd hw (hf.2.2.1 w i)

theorem frozen_run (op : Nat → OpResult) (base s : PoolState) (tr : List BatchAction)
    (hf : FrozenFrom base s) : FrozenFrom base (run op s tr) := by
  induction tr generalizing s with
  | nil => exact hf
  | cons a tl ih => exact ih (step op s a) (frozen_step op base s a hf)

theorem succ_add_fail_eq_countP (rs : List ResultRecord) :
    succeededCount rs + failedCount rs
      = rs.countP (fun r =>
          r.status == ItemStatus.success || r.status == ItemStatus.error) := by
  induction rs with
  | nil => simp [succeededCount, failedCount]
  | cons r t ih =>
    cases hst : r.status <;>
      simp only [succeededCount, failedCount, List.filter_cons, List.length_cons,
        List.countP_cons, status_beq_eq_decide, hst] at ih ⊢ <;>
      simp <;> omega

/-- C3: if cancellation is requested when exactly `k` items are
terminal, none of them cancelled (the flag was still clear), and every
claimed index is terminal (no operation in flight — cancellation before
any remaining item is claimed), then however the remaining workers are
scheduled, once they have all exited and the sweep has run there are
exactly `k` terminal non-cancelled items (`success`/`error`),
`totalCount - k` cancelled items, and nothing pending or processing.
In-flight work never exists under these hypotheses, and the dynamics
consult the flag only between claims (`completeStep` ignores it), so an
operation that did start always runs to completion. -/
theorem claim_C3_cancellation (op : Nat → OpResult) (items : List String) (c : Nat)
    (tr1 tr2 : List BatchAction) (k : Nat)
    (hnc : (runFrom op items c tr1).cancelled = false)
    (hcl : ∀ i, i < (runFrom op items c tr1).nextIndex → i < items.length →
      (statusAt (runFrom op items c tr1) i).isTerminal = true)
    (hk : terminalCount (runFrom op items c tr1).results = k)
    (hdone : allDone (run op (step op (runFrom op items c tr1) BatchAction.cancel) tr2)) :
    succeededCount (finish (run op (step op (runFrom op items c tr1)
        BatchAction.cancel) tr2)).results
      + failedCount (finish (run op (step op (runFrom op items c tr1)
        BatchAction.cancel) tr2)).results = k ∧
    cancelledCount (finish (run op (step op (runFrom op items c tr1)
        BatchAction.cancel) tr2)).results = items.length - k ∧
    pendingCount (finish (run op (step op (runFrom op items c tr1)
        BatchAction.cancel) tr2)).results = 0 ∧
    processingCount (finish (run op (step op (runFrom op items c tr1)
        BatchAction.cancel) tr2)).results = 0 := by
  set s1 := runFrom op items c tr1 with hs1
  set s2 := run op (step op s1 BatchAction.cancel) tr2 with hs2
  have hInv1 : PoolInv op s1 := inv_runFrom op items c tr1
  have hInv2 : PoolInv op s2 := inv_run op _ tr2 (inv_step op s1 BatchAction.cancel hInv1)
  have hlen1 : s1.results.length = items.length := runFrom_results_length op items c tr1
  have hnw : ∀ w i, s1.workers.getD w WorkerPC.finished ≠ WorkerPC.working i := by
    intro w i hw
    obtain ⟨h1, h2, h3⟩ := hInv1.working_proc w i hw
    have hterm := hcl i h2 (by omega)
    rw [h3] at hterm
    exact absurd hterm (by simp [ItemStatus.isTerminal])
  have hfr : FrozenFrom s1 s2 :=
    frozen_run op s1 _ tr2 ⟨rfl, rfl, hnw, fun i _ => Or.inl rfl⟩
  have hs2c : s2.cancelled = true := run_cancelled_mono op _ tr2 rfl
  have hlen2 : s2.results.length = items.length := hfr.2.1.trans hlen1
  have hfin : finish s2 = sweep s2 := by
    unfold finish
    rw [if_pos hs2c]
  have hproc2 : processingCount s2.results = 0 := allDone_no_processing op s2 hInv2 hdone
  have hbase : ∀ i, i < items.length →
      statusAt s1 i = ItemStatus.pending ∨ statusAt s1 i = ItemStatus.success ∨
        statusAt s1 i = ItemStatus.error := by
    intro i hi
    cases hst : statusAt s1 i with
    | pending => exact Or.inl rfl
    | success => exact Or.inr (Or.inl rfl)
    | error => exact Or.inr (Or.inr rfl)
    | cancelled =>
      have h5 := hInv1.cancel_flag i hst
      rw [hnc] at h5
      exact absurd h5 (by simp)
    | processing =>
      rcases Decidable.em (i < s1.nextIndex) with hlt | hge2
      · have hterm := hcl i hlt hi
        rw [hst] at hterm
        exact absurd hterm (by simp [ItemStatus.isTerminal])
      · have h5 := hInv1.unclaimed_pending i (Nat.le_of_not_lt hge2)
        rw [hst] at h5
        exact absurd h5 (by simp)
  have hflen : (finish s2).results.length = items.length := by
    rw [finish_results_length]
    exact hlen2
  have hpt : ∀ i, i < (finish s2).results.length →
      ((fun r => r.status == ItemStatus.success || r.status == ItemStatus.error)
        ((finish s2).results.getD i default))
      = ((fun r => r.status.isTerminal) (s1.results.getD i default)) := by
    intro i hi
    have hi3 : i < items.length := by omega
    have hi2 : i < s2.results.length := by omega
    rw [hfin]
    show (((sweep s2).results.getD i default).status == ItemStatus.success ||
        ((sweep s2).results.getD i default).status == ItemStatus.error)
      = (s1.results.getD i default).status.isTerminal
    have hsw := statusAt_sweep s2 i hi2
    unfold statusAt at hsw
    rw [hsw]
    rcases hfr.2.2.2 i (by omega) with hA | hB
    · rw [hA]
      rcases hbase i hi3 with hp | hp | hp <;> unfold statusAt at hp <;> rw [hp]
      · rfl
      · rfl
      · rfl
    · rw [hB.2]
      have hcst : ({ s1.results.getD i default with
          status := ItemStatus.cancelled } : ResultRecord).status
          = ItemStatus.cancelled := rfl
      rw [hcst]
      have hbp := hB.1
      unfold statusAt at hbp
      rw [hbp]
      rfl
  have hcount := countP_eq_pointwise
    (fun r => r.status == ItemStatus.success || r.status == ItemStatus.error)
    (fun r => r.status.isTerminal)
    (finish s2).results s1.results default default (by omega) hpt
  have h1 : succeededCount (finish s2).results + failedCount (finish s2).results = k := by
    rw [succ_add_fail_eq_countP, hcount, ← terminalCount_eq_countP, hk]
  have hpend0 : pendingCount (finish s2).results = 0 := by
    rw [hfin, pendingCount_eq_countP, List.countP_eq_zero]
    intro r hr
    obtain ⟨r0, _, rfl⟩ := List.mem_map.mp hr
    show ¬((markCancelledIfPending r0).status == ItemStatus.pending) = true
    unfold markCancelledIfPending
    rcases Decidable.em (r0.status = ItemStatus.pending) with hp | hp
    · rw [if_pos hp]
      simp
    · rw [if_neg hp, status_beq_eq_decide]
      simpa using hp
  have hproc0 : processingCount (finish s2).results = 0 := by
    rw [hfin, processingCount_eq_countP, List.countP_eq_zero]
    intro r hr
    obtain ⟨r0, hr0, rfl⟩ := List.mem_map.mp hr
    have h5 : ¬(r0.status == ItemStatus.processing) = true := by
      rw [processingCount_eq_countP, List.countP_eq_zero] at hproc2
      exact hproc2 r0 hr0
    show ¬((markCancelledIfPending r0).status == ItemStatus.processing) = true
    unfold markCancelledIfPending
    rcases Decidable.em (r0.status = ItemStatus.pending) with hp | hp
    · rw [if_pos hp]
      simp
    · rw [if_neg hp]
      exact h5
  have hpart := counts_partition (finish s2).results
  exact ⟨h1, by omega, hpend0, hproc0⟩

theorem claim_C3_cancellation_witness :
    (runFrom (fun _ => OpResult.ok "u") ["a", "b"] 2 [BatchAction.work 0,
      BatchAction.work 0]).cancelled = false ∧
    (∀ i, i < (runFrom (fun _ => OpResult.ok "u") ["a", "b"] 2 [BatchAction.work 0,
        BatchAction.work 0]).nextIndex → i < (["a", "b"] : List String).length →
      (statusAt (runFrom (fun _ => OpResult.ok "u") ["a", "b"] 2 [BatchAction.work 0,
        BatchAction.work 0]) i).isTerminal = true) ∧
    terminalCount (runFrom (fun _ => OpResult.ok "u") ["a", "b"] 2 [BatchAction.work 0,
      BatchAction.work 0]).results = 1 ∧
    allDone (run (fun _ => OpResult.ok "u")
      (step (fun _ => OpResult.ok "u")
        (runFrom (fun _ => OpResult.ok "u") ["a", "b"] 2 [BatchAction.work 0,
          BatchAction.work 0]) BatchAction.cancel)
      [BatchAction.work 0, BatchAction.work 1]) ∧
    (succeededCount (finish (run (fun _ => OpResult.ok "u")
        (step (fun _ => OpResult.ok "u")
          (runFrom (fun _ => OpResult.ok "u") ["a", "b"] 2 [BatchAction.work 0,
            BatchAction.work 0]) BatchAction.cancel)
        [BatchAction.work 0, BatchAction.work 1])).results
      + failedCount (finish (run (fun _ => OpResult.ok "u")
        (step (fun _ => OpResult.ok "u")
          (runFrom (fun _ => OpResult.ok "u") ["a", "b"] 2 [BatchAction.work 0,
            BatchAction.work 0]) BatchAction.cancel)
        [BatchAction.work 0, BatchAction.work 1])).results = 1 ∧
    cancelledCount (finish (run (fun _ => OpResult.ok "u")
        (step (fun _ => OpResult.ok "u")
          (runFrom (fun _ => OpResult.ok "u") ["a", "b"] 2 [BatchAction.work 0,
            BatchAction.work 0]) BatchAction.cancel)
        [BatchAction.work 0, BatchAction.work 1])).results
      = (["a", "b"] : List String).length - 1 ∧
    pendingCount (finish (run (fun _ => OpResult.ok "u")
        (step (fun _ => OpResult.ok "u")
          (runFrom (fun _ => OpResult.ok "u") ["a", "b"] 2 [BatchAction.work 0,
            BatchAction.work 0]) BatchAction.cancel)
        [BatchAction.work 0, BatchAction.work 1])).results = 0 ∧
    processingCount (finish (run (fun _ => OpResult.ok "u")
        (step (fun _ => OpResult.ok "u")
          (runFrom (fun _ => OpResult.ok "u") ["a", "b"] 2 [BatchAction.work 0,
            BatchAction.work 0]) BatchAction.cancel)
        [BatchAction.work 0, BatchAction.work 1])).results = 0) :=
  ⟨by decide, by decide, by decide, by decide,
    claim_C3_cancellation (fun _ => OpResult.ok "u") ["a", "b"] 2
      [BatchAction.work 0, BatchAction.work 0] [BatchAction.work 0, BatchAction.work 1] 1
      (by decide) (by decide) (by decide) (by decide)⟩
